import Mathlib

/-!
# RC5 infrared decoder for the MSP430 (`src/main.c`)

A shallow embedding of the two interrupt handlers `Port_1` and `Timer0`, of the
set-up done by `main`, and of the event discipline of the hardware (a handler
runs only when its interrupt enable bit is set).

Machine words are natural numbers holding the bit pattern of the register or
variable.  A C `int` of the MSP430 is a 16-bit two's complement word: `sint`
gives the signed value of a pattern and is used wherever the source compares a
signed variable (`count >= 13`, `data > 0`); `shl16` and `inc16` wrap at
`2^16`; `asr16` is the arithmetic right shift of a signed word.
-/

namespace IRDecoder

/-! ## Constants of the device header `<msp430.h>` and of `main.c` -/

/-- Bit 0 of a register (device header). -/
def BIT0 : Nat := 0x01
/-- Bit 3 of a register (device header). -/
def BIT3 : Nat := 0x08
/-- Bit 4 of a register (device header). -/
def BIT4 : Nat := 0x10
/-- Bit 6 of a register (device header). -/
def BIT6 : Nat := 0x40
/-- Bit 7 of a register (device header). -/
def BIT7 : Nat := 0x80
/-- Capture/compare interrupt enable bit of `TACCTL0` (device header). -/
def CCIE : Nat := 0x0010
/-- Capture/compare interrupt flag bit of `TACCTL0` (device header). -/
def CCIFG : Nat := 0x0001
/-- Timer A clock source select: SMCLK (device header). -/
def TASSEL_2 : Nat := 0x0200
/-- Timer A mode control: stop (device header). -/
def MC_0 : Nat := 0x0000
/-- Timer A mode control: up mode (device header). -/
def MC_1 : Nat := 0x0010
/-- Timer A clear bit (device header). -/
def TACLR : Nat := 0x0004

/-- IR receiver on P1.4 (`#define IRDATA BIT4`). -/
def IRDATA : Nat := BIT4
/-- Red LED on P1.0 (`#define RED BIT0`). -/
def RED : Nat := BIT0
/-- Green LED on P1.6 (`#define GREEN BIT6`). -/
def GREEN : Nat := BIT6
/-- Motor on P1.7 (`#define MOTOR BIT7`). -/
def MOTOR : Nat := BIT7
/-- Timing between samples (`#define T_INTERVAL 2450`). -/
def T_INTERVAL : Nat := 2450
/-- Timing debug pin (`#define DEBUG_PIN BIT3`). -/
def DEBUG_PIN : Nat := BIT3

/-! ## 16-bit and 8-bit machine arithmetic -/

/-- Signed value of a 16-bit two's complement pattern. -/
def sint (w : Nat) : Int :=
  if w % 65536 < 32768 then ((w % 65536 : Nat) : Int) else ((w % 65536 : Nat) : Int) - 65536

/-- One's complement `~m` as it acts on an 8-bit register. -/
def not8 (m : Nat) : Nat := 0xFF ^^^ m

/-- One's complement `~m` as it acts on a 16-bit register or variable. -/
def not16 (m : Nat) : Nat := 0xFFFF ^^^ m

/-- Left shift by one of a 16-bit word (`x <<= 1`), wrapping at `2^16`. -/
def shl16 (w : Nat) : Nat := (w * 2) % 65536

/-- Increment of a 16-bit word (`x++`), wrapping at `2^16`. -/
def inc16 (w : Nat) : Nat := (w + 1) % 65536

/-- Arithmetic right shift `w >> n` of a signed 16-bit word: the sign bit is
replicated into the vacated positions. -/
def asr16 (w n : Nat) : Nat :=
  if w % 65536 < 32768 then (w % 65536) >>> n
  else ((w % 65536) >>> n) ||| (0xFFFF ^^^ (0xFFFF >>> n))

/-! ## Program state -/

/-- The variables of `main.c` and the peripheral registers its handlers write.
`data`, `command`, `address`, `toggle` are the globals; `lastToggle`,
`lastCommand`, `repeat`, `count` the statics of `Timer0`. -/
structure State where
  data : Nat
  command : Nat
  address : Nat
  toggle : Nat
  lastToggle : Nat
  lastCommand : Nat
  «repeat» : Nat
  count : Nat
  P1IE : Nat
  P1IFG : Nat
  P1OUT : Nat
  TACCTL0 : Nat
  TACTL : Nat
  TACCR0 : Nat
  deriving DecidableEq, Repr

/-- The edge handler `Port_1` (lines 52-64). -/
def Port_1 (s : State) : State :=
  let s := { s with P1IE := s.P1IE &&& not8 IRDATA }
  let s := { s with P1IFG := s.P1IFG &&& not8 IRDATA }
  let s := { s with data := 1 }
  let s := { s with TACCTL0 := s.TACCTL0 ||| CCIE }
  let s := { s with TACTL := TASSEL_2 }
  let s := { s with TACCR0 := s.TACCR0 &&& not16 CCIFG }
  { s with TACTL := s.TACTL ||| MC_1 }

/-- The repeat-suppression step of `Timer0` (lines 93-99). -/
def suppress (s : State) : State :=
  if s.lastCommand = s.command ∧ s.lastToggle = s.toggle then
    { s with «repeat» := 1 }
  else
    let s := { s with lastCommand := s.command }
    let s := { s with lastToggle := s.toggle }
    { s with «repeat» := 0 }

/-- The command switch of `Timer0` (lines 101-114). -/
def dispatch (s : State) : State :=
  if s.command = 0 then
    if s.«repeat» = 0 then { s with P1OUT := s.P1OUT ^^^ RED } else s
  else if s.command = 1 then
    if s.«repeat» = 0 then { s with P1OUT := s.P1OUT ^^^ GREEN } else s
  else if s.command = 7 then
    if s.«repeat» = 0 then { s with P1OUT := s.P1OUT ^^^ MOTOR } else s
  else s

/-- The framing branch of `Timer0` (lines 82-114), entered when `count >= 13`. -/
def framing (s : State) : State :=
  let s := { s with TACTL := s.TACTL &&& MC_0 }
  let s := { s with TACTL := s.TACTL ||| TACLR }
  let s := { s with command := s.data &&& 0x3F }
  let s := { s with address := asr16 s.data 6 &&& 0x1F }
  let s := { s with toggle := asr16 s.data 11 &&& 1 }
  let s := { s with P1IE := s.P1IE ||| IRDATA }
  let s := { s with P1IFG := s.P1IFG &&& not8 IRDATA }
  let s := { s with count := 0 }
  dispatch (suppress s)

/-- The sampling branch of `Timer0` (lines 118-124); `p1in` is the value read
from the input register `P1IN`. -/
def sampling (p1in : Nat) (s : State) : State :=
  let s := if 0 < sint s.data then { s with data := shl16 s.data } else s
  let s := if p1in &&& IRDATA ≠ IRDATA then { s with data := s.data ||| 1 } else s
  let s := { s with count := inc16 s.count }
  { s with TACCTL0 := s.TACCTL0 ||| CCIE }

/-- The timer handler `Timer0` (lines 67-126); `p1in` is the value of `P1IN`
at the time the handler runs. -/
def Timer0 (p1in : Nat) (s : State) : State :=
  let s := { s with TACCTL0 := s.TACCTL0 &&& not16 CCIE }
  if 13 ≤ sint s.count then framing s else sampling p1in s

/-- The state at power-up, before `main` runs: the C variables have their
initialisers (statics without one are zero), the peripheral registers their
reset values; `P1OUT` is not reset by the hardware and is left as `p1out`. -/
def powerUp (p1out : Nat) : State :=
  { data := 0, command := 0, address := 0, toggle := 0,
    lastToggle := 0, lastCommand := 0, «repeat» := 0, count := 0,
    P1IE := 0, P1IFG := 0, P1OUT := p1out,
    TACCTL0 := 0, TACTL := 0, TACCR0 := 0 }

/-- The part of `main` (lines 22-48) that writes the modelled registers. -/
def main (s : State) : State :=
  let s := { s with P1OUT := s.P1OUT ||| (DEBUG_PIN ||| RED ||| GREEN) }
  let s := { s with P1OUT := s.P1OUT &&& not8 MOTOR }
  let s := { s with P1IE := IRDATA }
  { s with TACCR0 := T_INTERVAL }

/-- The state in which `main` goes to sleep, for a power-up content `p1out`
of the output register. -/
def init (p1out : Nat) : State := main (powerUp p1out)

/-! ## Events -/

/-- A hardware event: a falling edge on IRDATA, or a timer tick at which the
input register reads `p1in`. -/
inductive Event where
  | edge : Event
  | tick (p1in : Nat) : Event
  deriving DecidableEq, Repr

/-- The edge interrupt is enabled: `P1IE` has the IRDATA bit set. -/
def edgeEnabled (s : State) : Prop := s.P1IE &&& IRDATA = IRDATA

/-- The timer interrupt is enabled: `TACCTL0` has the CCIE bit set. -/
def timerEnabled (s : State) : Prop := s.TACCTL0 &&& CCIE = CCIE

instance (s : State) : Decidable (edgeEnabled s) := by
  unfold edgeEnabled; infer_instance

instance (s : State) : Decidable (timerEnabled s) := by
  unfold timerEnabled; infer_instance

/-- One event: its handler runs if its interrupt is enabled; otherwise the
event cannot fire. -/
def step (s : State) : Event → Option State
  | Event.edge => if edgeEnabled s then some (Port_1 s) else none
  | Event.tick p => if timerEnabled s then some (Timer0 p s) else none

/-- A sequence of events, each required to be enabled when it fires. -/
def run (s : State) : List Event → Option State
  | [] => some s
  | e :: es => (step s e).bind (fun t => run t es)

/-- States reachable from the initial state by edge and tick events. -/
inductive Reachable : State → Prop where
  | start (p1out : Nat) : Reachable (init p1out)
  | next (s t : State) (e : Event) : Reachable s → step s e = some t → Reachable t

/-- The listening state: edge detection armed, timer interrupt off, no sample
counted. -/
def Listening (s : State) : Prop :=
  edgeEnabled s ∧ ¬ timerEnabled s ∧ s.count = 0

/-- The bit a sampling tick appends: 1 when the line reads low. -/
def lineLow (p1in : Nat) : Nat := if p1in &&& IRDATA ≠ IRDATA then 1 else 0

/-- The sampling ticks of one transmission, in order. -/
def sampleTicks (s : State) : List Nat → State
  | [] => s
  | p :: ps => sampleTicks (Timer0 p s) ps

/-- The accumulator after appending the bits of the samples `ps` to `d`. -/
def accumulate (d : Nat) : List Nat → Nat
  | [] => d
  | p :: ps => accumulate (2 * d + lineLow p) ps

/-- One whole transmission: the edge, the sampling ticks `ps` and the framing
tick (at which the input reads `pf`). -/
def transmission (s : State) (ps : List Nat) (pf : Nat) : State :=
  Timer0 pf (sampleTicks (Port_1 s) ps)

/-- Feeding consecutive transmissions (each the 13 line samples and the input
read at the framing tick): the list of states after each framing tick. -/
def feed (s : State) : List (List Nat × Nat) → List State
  | [] => []
  | f :: fs => transmission s f.1 f.2 :: feed (transmission s f.1 f.2) fs

/-- The number of samples collected since the most recent edge, once event `e`
has fired in state `s` in which `n` samples had been collected: an edge starts
anew, a sampling tick collects one more, a framing tick collects none. -/
def collected (s : State) (n : Nat) : Event → Nat
  | Event.edge => 0
  | Event.tick _ => if 13 ≤ sint s.count then n else n + 1

/-- A run that also counts the samples collected since the most recent edge. -/
def runCounting (s : State) (n : Nat) : List Event → Option (State × Nat)
  | [] => some (s, n)
  | e :: es => (step s e).bind (fun t => runCounting t (collected s n e) es)

/-- The line samples of a transmission with second start bit 1, toggle 0,
address 00001 and command 000000 (the line reads low, `0`, for a 1 bit and
high, `IRDATA`, for a 0 bit). -/
def samplesAddr1Cmd0 : List Nat :=
  [0, 0x10, 0x10, 0x10, 0x10, 0x10, 0, 0x10, 0x10, 0x10, 0x10, 0x10, 0x10]

/-- The line samples of a transmission with toggle 0 and command 000001. -/
def samplesCmd1Tgl0 : List Nat :=
  [0, 0x10, 0x10, 0x10, 0x10, 0x10, 0, 0x10, 0x10, 0x10, 0x10, 0x10, 0]

/-- The line samples of a transmission with toggle 1 and command 000001. -/
def samplesCmd1Tgl1 : List Nat :=
  [0, 0, 0x10, 0x10, 0x10, 0x10, 0, 0x10, 0x10, 0x10, 0x10, 0x10, 0]

/-- The events of one transmission: the edge, the sampling ticks, the framing
tick. -/
def transmissionEvents (ps : List Nat) (pf : Nat) : List Event :=
  Event.edge :: (ps.map Event.tick ++ [Event.tick pf])

/-- The state the framing branch hands to repeat suppression. -/
def framed (s : State) : State :=
  { s with TACCTL0 := s.TACCTL0 &&& not16 CCIE,
           TACTL := (s.TACTL &&& MC_0) ||| TACLR,
           command := s.data &&& 0x3F,
           address := asr16 s.data 6 &&& 0x1F,
           toggle := asr16 s.data 11 &&& 1,
           P1IE := s.P1IE ||| IRDATA,
           P1IFG := s.P1IFG &&& not8 IRDATA,
           count := 0 }

instance (s : State) : Decidable (Listening s) := by
  unfold Listening; infer_instance

/-- The invariant of the reachable states: the sampling interval is intact,
and the decoder is either listening or in a sampling sequence, with the edge
interrupt off, the timer interrupt on and the accumulator holding the start
bit followed by `count` samples. -/
def Inv (s : State) : Prop :=
  s.TACCR0 = T_INTERVAL ∧
  (Listening s ∨
    (¬ edgeEnabled s ∧ timerEnabled s ∧ s.count ≤ 13 ∧
      2 ^ s.count ≤ s.data ∧ s.data < 2 ^ (s.count + 1)))

/-- The value of the bits `b1 … bk` read most significant bit first: the sum
of `b_i * 2^(k-i)`. -/
def msbValue : List Nat → Nat
  | [] => 0
  | b :: bs => b * 2 ^ bs.length + msbValue bs

/-- The number of timer ticks that follow the most recent edge of a trace,
counted on the events alone; `k` is the number carried in from before the
trace. -/
def ticksSinceEdge (k : Nat) : List Event → Nat
  | [] => k
  | Event.edge :: es => ticksSinceEdge 0 es
  | Event.tick _ :: es => ticksSinceEdge (k + 1) es

/-! ## Machine arithmetic lemmas -/

theorem sint_of_lt {w : Nat} (h : w < 32768) : sint w = (w : Int) := by
  unfold sint
  have h1 : w % 65536 = w := Nat.mod_eq_of_lt (by omega)
  rw [h1, if_pos h]

theorem or_bit4 (x : Nat) : (x ||| 16) &&& 16 = 16 := by
  apply Nat.eq_of_testBit_eq
  intro i
  simp only [Nat.testBit_and, Nat.testBit_or]
  cases (Nat.testBit 16 i) <;> simp

theorem and_ef_bit4 (x : Nat) : (x &&& 0xEF) &&& 16 = 0 := by
  have h : (0xEF &&& 16 : Nat) = 0 := by decide
  rw [Nat.and_assoc, h, Nat.and_zero]

theorem and_ffef_bit4 (x : Nat) : (x &&& 0xFFEF) &&& 16 = 0 := by
  have h : (0xFFEF &&& 16 : Nat) = 0 := by decide
  rw [Nat.and_assoc, h, Nat.and_zero]

theorem or_one_even (d : Nat) : (2 * d) ||| 1 = 2 * d + 1 := by
  have := @Nat.mul_add_lt_is_or 1 1 (by decide) d
  simpa using this.symm

theorem lineLow_le (p : Nat) : lineLow p ≤ 1 := by
  unfold lineLow; split <;> omega

/-! ## The two branches of `Timer0` -/

theorem Timer0_sample (p : Nat) (s : State) (hc : s.count < 13)
    (h0 : 0 < s.data) (h1 : s.data < 16384) :
    Timer0 p s = { s with TACCTL0 := (s.TACCTL0 &&& not16 CCIE) ||| CCIE,
                          data := 2 * s.data + lineLow p,
                          count := s.count + 1 } := by
  have hsc : sint s.count = (s.count : Int) := sint_of_lt (by omega)
  have hsd : sint s.data = (s.data : Int) := sint_of_lt (by omega)
  have hshl : shl16 s.data = 2 * s.data := by unfold shl16; omega
  have hinc : inc16 s.count = s.count + 1 := by unfold inc16; omega
  have hnf : ¬ (13 : Int) ≤ sint s.count := by rw [hsc]; omega
  have hpos : (0 : Int) < sint s.data := by rw [hsd]; omega
  unfold Timer0 sampling
  simp only [hnf, if_false, hpos, if_true, hshl, hinc]
  unfold lineLow
  split <;> simp [or_one_even, hinc]

theorem Timer0_frame (p : Nat) (s : State) (hc : 13 ≤ sint s.count) :
    Timer0 p s = framing { s with TACCTL0 := s.TACCTL0 &&& not16 CCIE } := by
  unfold Timer0
  simp only [hc, if_true]

theorem accumulate_bounds (ps : List Nat) : ∀ (d k : Nat), 2 ^ k ≤ d → d < 2 ^ (k + 1) →
    2 ^ (k + ps.length) ≤ accumulate d ps ∧ accumulate d ps < 2 ^ (k + ps.length + 1) := by
  induction ps with
  | nil => intro d k h1 h2; simpa [accumulate] using ⟨h1, h2⟩
  | cons p ps ih =>
    intro d k h1 h2
    have hb := lineLow_le p
    have h3 : 2 ^ (k + 1) ≤ 2 * d + lineLow p := by rw [pow_succ]; omega
    have h4 : 2 * d + lineLow p < 2 ^ (k + 1 + 1) := by rw [pow_succ 2 (k+1)]; omega
    have := ih (2 * d + lineLow p) (k + 1) h3 h4
    simp only [accumulate, List.length_cons]
    have e : k + (ps.length + 1) = k + 1 + ps.length := by omega
    rw [e]; exact this

theorem sampleTicks_spec (ps : List Nat) : ∀ (s : State), s.count + ps.length ≤ 13 →
    2 ^ s.count ≤ s.data → s.data < 2 ^ (s.count + 1) →
    sampleTicks s ps = { s with TACCTL0 := (sampleTicks s ps).TACCTL0,
                                data := accumulate s.data ps,
                                count := s.count + ps.length } := by
  induction ps with
  | nil => intro s _ _ _; simp [sampleTicks, accumulate]
  | cons p ps ih =>
    intro s hc h1 h2
    simp only [List.length_cons] at hc
    have hpos : 0 < s.data := lt_of_lt_of_le (Nat.two_pow_pos s.count) h1
    have hlt : s.data < 16384 := by
      have : 2 ^ (s.count + 1) ≤ 2 ^ 14 := Nat.pow_le_pow_right (by decide) (by omega)
      omega
    have hstep := Timer0_sample p s (by omega) hpos hlt
    have hb := lineLow_le p
    simp only [sampleTicks, accumulate]
    rw [hstep]
    have h3 : 2 ^ (s.count + 1) ≤ 2 * s.data + lineLow p := by rw [pow_succ]; omega
    have h4 : 2 * s.data + lineLow p < 2 ^ (s.count + 1 + 1) := by
      rw [pow_succ 2 (s.count+1)]; omega
    have := ih { s with TACCTL0 := (s.TACCTL0 &&& not16 CCIE) ||| CCIE,
                          data := 2 * s.data + lineLow p,
                          count := s.count + 1 } (by simp; omega) (by simpa using h3) (by simpa using h4)
    rw [this]
    simp
    omega

/-! ## Whole transmissions -/

theorem Port_1_timerEnabled (s : State) : timerEnabled (Port_1 s) := by
  simp only [timerEnabled, Port_1, CCIE]
  exact or_bit4 _

theorem Timer0_sample_timerEnabled (p : Nat) (s : State) (hc : s.count < 13)
    (h0 : 0 < s.data) (h1 : s.data < 16384) : timerEnabled (Timer0 p s) := by
  rw [Timer0_sample p s hc h0 h1]
  simp only [timerEnabled, CCIE]
  exact or_bit4 _

theorem run_append (es fs : List Event) : ∀ (s : State),
    run s (es ++ fs) = (run s es).bind (fun t => run t fs) := by
  induction es with
  | nil => intro s; simp [run]
  | cons e es ih =>
    intro s
    simp only [List.cons_append, run]
    cases step s e with
    | none => simp
    | some t => simp [ih t]

theorem run_sampleTicks (ps : List Nat) : ∀ (s : State), timerEnabled s →
    s.count + ps.length ≤ 13 → 2 ^ s.count ≤ s.data → s.data < 2 ^ (s.count + 1) →
    run s (ps.map Event.tick) = some (sampleTicks s ps) := by
  induction ps with
  | nil => intro s _ _ _ _; simp [run, sampleTicks]
  | cons p ps ih =>
    intro s he hc h1 h2
    simp only [List.length_cons] at hc
    have hpos : 0 < s.data := lt_of_lt_of_le (Nat.two_pow_pos s.count) h1
    have hlt : s.data < 16384 := by
      have : 2 ^ (s.count + 1) ≤ 2 ^ 14 := Nat.pow_le_pow_right (by decide) (by omega)
      omega
    have hen := Timer0_sample_timerEnabled p s (by omega) hpos hlt
    have hstep := Timer0_sample p s (by omega) hpos hlt
    have hb := lineLow_le p
    have h3 : 2 ^ (s.count + 1) ≤ 2 * s.data + lineLow p := by rw [pow_succ]; omega
    have h4 : 2 * s.data + lineLow p < 2 ^ (s.count + 1 + 1) := by
      rw [pow_succ 2 (s.count+1)]; omega
    have hc' : (Timer0 p s).count = s.count + 1 := by rw [hstep]
    have hd' : (Timer0 p s).data = 2 * s.data + lineLow p := by rw [hstep]
    simp only [List.map_cons, run, step, he, if_true, Option.some_bind, sampleTicks]
    apply ih (Timer0 p s) hen
    · rw [hc']; omega
    · rw [hc', hd']; exact h3
    · rw [hc', hd']; exact h4

theorem sampleTicks_timerEnabled (ps : List Nat) : ∀ (s : State), timerEnabled s →
    s.count + ps.length ≤ 13 → 2 ^ s.count ≤ s.data → s.data < 2 ^ (s.count + 1) →
    timerEnabled (sampleTicks s ps) := by
  induction ps with
  | nil => intro s he _ _ _; simpa [sampleTicks] using he
  | cons p ps ih =>
    intro s _ hc h1 h2
    simp only [List.length_cons] at hc
    have hpos : 0 < s.data := lt_of_lt_of_le (Nat.two_pow_pos s.count) h1
    have hlt : s.data < 16384 := by
      have : 2 ^ (s.count + 1) ≤ 2 ^ 14 := Nat.pow_le_pow_right (by decide) (by omega)
      omega
    have hen := Timer0_sample_timerEnabled p s (by omega) hpos hlt
    have hstep := Timer0_sample p s (by omega) hpos hlt
    have hb := lineLow_le p
    have h3 : 2 ^ (s.count + 1) ≤ 2 * s.data + lineLow p := by rw [pow_succ]; omega
    have h4 : 2 * s.data + lineLow p < 2 ^ (s.count + 1 + 1) := by
      rw [pow_succ 2 (s.count+1)]; omega
    have hc' : (Timer0 p s).count = s.count + 1 := by rw [hstep]
    have hd' : (Timer0 p s).data = 2 * s.data + lineLow p := by rw [hstep]
    simp only [sampleTicks]
    apply ih (Timer0 p s) hen
    · rw [hc']; omega
    · rw [hc', hd']; exact h3
    · rw [hc', hd']; exact h4

/-- The state at the framing tick of a transmission begun with no sample counted. -/
theorem sampled_spec (s : State) (ps : List Nat) (h0 : s.count = 0) (hlen : ps.length = 13) :
    sampleTicks (Port_1 s) ps =
      { Port_1 s with TACCTL0 := (sampleTicks (Port_1 s) ps).TACCTL0,
                      data := accumulate 1 ps, count := 13 } := by
  have hc : (Port_1 s).count = 0 := by simp [Port_1, h0]
  have hd : (Port_1 s).data = 1 := by simp [Port_1]
  have := sampleTicks_spec ps (Port_1 s) (by omega) (by rw [hc, hd]; decide)
    (by rw [hc, hd]; decide)
  rw [hc, hd, hlen] at this
  exact this

theorem transmission_eq (s : State) (ps : List Nat) (pf : Nat) (h0 : s.count = 0)
    (hlen : ps.length = 13) :
    transmission s ps pf =
      framing { Port_1 s with TACCTL0 := (sampleTicks (Port_1 s) ps).TACCTL0 &&& not16 CCIE,
                              data := accumulate 1 ps, count := 13 } := by
  unfold transmission
  have h := sampled_spec s ps h0 hlen
  have hc : 13 ≤ sint (sampleTicks (Port_1 s) ps).count := by
    rw [h]; show (13 : Int) ≤ sint 13; decide
  rw [Timer0_frame pf _ hc]
  congr 1
  rw [h]

theorem run_transmission (s : State) (ps : List Nat) (pf : Nat) (hL : Listening s)
    (hlen : ps.length = 13) :
    run s (transmissionEvents ps pf) = some (transmission s ps pf) := by
  obtain ⟨he, _, h0⟩ := hL
  have hc : (Port_1 s).count = 0 := by simp [Port_1, h0]
  have hd : (Port_1 s).data = 1 := by simp [Port_1]
  have hte := Port_1_timerEnabled s
  have h1 := run_sampleTicks ps (Port_1 s) hte (by omega)
    (by rw [hc, hd]; decide) (by rw [hc, hd]; decide)
  have h2 := sampleTicks_timerEnabled ps (Port_1 s) hte (by omega)
    (by rw [hc, hd]; decide) (by rw [hc, hd]; decide)
  simp only [transmissionEvents, run, step, he, if_true, Option.some_bind, run_append, h1, h2,
    transmission]
/-! ## The framing tick -/

theorem dispatch_eq (t : State) : dispatch t = { t with P1OUT := (dispatch t).P1OUT } := by
  unfold dispatch
  split <;> (try split) <;> (try split) <;> (try split) <;> rfl

theorem dispatch_P1OUT (t : State) :
    (dispatch t).P1OUT =
      if t.«repeat» = 0 then
        (if t.command = 0 then t.P1OUT ^^^ RED
         else if t.command = 1 then t.P1OUT ^^^ GREEN
         else if t.command = 7 then t.P1OUT ^^^ MOTOR
         else t.P1OUT)
      else t.P1OUT := by
  unfold dispatch
  by_cases hr : t.«repeat» = 0 <;> by_cases h0 : t.command = 0 <;>
    by_cases h1 : t.command = 1 <;> by_cases h7 : t.command = 7 <;> simp [hr, h0, h1, h7]

theorem suppress_eq (t : State) :
    suppress t = { t with «repeat» := (suppress t).«repeat»,
                          lastCommand := (suppress t).lastCommand,
                          lastToggle := (suppress t).lastToggle } := by
  unfold suppress
  split <;> rfl

theorem suppress_repeat (t : State) :
    (suppress t).«repeat» = if t.lastCommand = t.command ∧ t.lastToggle = t.toggle then 1 else 0 := by
  unfold suppress
  split <;> rfl

theorem suppress_last (t : State) :
    (suppress t).lastCommand = t.command ∧ (suppress t).lastToggle = t.toggle := by
  unfold suppress
  split
  · rename_i h; exact ⟨h.1, h.2⟩
  · exact ⟨rfl, rfl⟩

theorem Timer0_framed (p : Nat) (s : State) (h : 13 ≤ sint s.count) :
    Timer0 p s = dispatch (suppress (framed s)) := by
  rw [Timer0_frame p s h]
  rfl

/-- Fields of the state after a framing tick, in terms of the state before. -/
theorem framing_fields (p : Nat) (s : State) (h : 13 ≤ sint s.count) :
    (Timer0 p s).command = s.data &&& 0x3F ∧
    (Timer0 p s).address = asr16 s.data 6 &&& 0x1F ∧
    (Timer0 p s).toggle = asr16 s.data 11 &&& 1 ∧
    (Timer0 p s).count = 0 ∧
    (Timer0 p s).data = s.data := by
  rw [Timer0_framed p s h, dispatch_eq, suppress_eq]
  exact ⟨rfl, rfl, rfl, rfl, rfl⟩

theorem framing_repeat (p : Nat) (s : State) (h : 13 ≤ sint s.count) :
    (Timer0 p s).«repeat» =
      if s.lastCommand = (Timer0 p s).command ∧ s.lastToggle = (Timer0 p s).toggle then 1
      else 0 := by
  obtain ⟨hc, _, ht, _, _⟩ := framing_fields p s h
  rw [hc, ht, Timer0_framed p s h, dispatch_eq]
  exact suppress_repeat (framed s)

theorem framing_last (p : Nat) (s : State) (h : 13 ≤ sint s.count) :
    (Timer0 p s).lastCommand = (Timer0 p s).command ∧
    (Timer0 p s).lastToggle = (Timer0 p s).toggle := by
  obtain ⟨hc, _, ht, _, _⟩ := framing_fields p s h
  rw [hc, ht, Timer0_framed p s h, dispatch_eq]
  exact suppress_last (framed s)

theorem framing_P1OUT (p : Nat) (s : State) (h : 13 ≤ sint s.count) :
    (Timer0 p s).P1OUT =
      if (Timer0 p s).«repeat» = 0 then
        (if (Timer0 p s).command = 0 then s.P1OUT ^^^ RED
         else if (Timer0 p s).command = 1 then s.P1OUT ^^^ GREEN
         else if (Timer0 p s).command = 7 then s.P1OUT ^^^ MOTOR
         else s.P1OUT)
      else s.P1OUT := by
  have e1 : (Timer0 p s).«repeat» = (suppress (framed s)).«repeat» := by
    rw [Timer0_framed p s h, dispatch_eq]
  have e2 : (Timer0 p s).command = (suppress (framed s)).command := by
    rw [Timer0_framed p s h, dispatch_eq]
  have e3 : (suppress (framed s)).P1OUT = s.P1OUT := by rw [suppress_eq]; rfl
  rw [e1, e2, Timer0_framed p s h, dispatch_P1OUT, e3]

theorem framing_enables (p : Nat) (s : State) (h : 13 ≤ sint s.count) :
    edgeEnabled (Timer0 p s) ∧ ¬ timerEnabled (Timer0 p s) := by
  have h1 : (s.P1IE ||| 16) &&& 16 = 16 := or_bit4 _
  have h2 : ¬ (s.TACCTL0 &&& 0xFFEF &&& 16 = 16) := by
    rw [and_ffef_bit4 s.TACCTL0]; decide
  rw [Timer0_framed p s h, dispatch_eq, suppress_eq]
  exact ⟨h1, h2⟩

/-! ## Decoding arithmetic -/

theorem and_3F (w : Nat) : w &&& 0x3F = w % 64 :=
  Nat.and_pow_two_sub_one_eq_mod w 6

theorem and_1F (w : Nat) : w &&& 0x1F = w % 32 :=
  Nat.and_pow_two_sub_one_eq_mod w 5

theorem asr16_11_and_one (w : Nat) : asr16 w 11 &&& 1 = w / 2048 % 2 := by
  unfold asr16
  split
  · rw [Nat.and_one_is_mod, Nat.shiftRight_eq_div_pow]; omega
  · have e : (0xFFFF ^^^ (0xFFFF >>> 11) : Nat) = 0xFFE0 := by decide
    have z : (0xFFE0 &&& 1 : Nat) = 0 := by decide
    rw [e, Nat.and_distrib_right, z, Nat.or_zero, Nat.and_one_is_mod,
      Nat.shiftRight_eq_div_pow]
    omega

theorem asr16_6_and_1F (w : Nat) : asr16 w 6 &&& 0x1F = w / 64 % 32 := by
  unfold asr16
  split
  · rw [and_1F, Nat.shiftRight_eq_div_pow]; omega
  · have e : (0xFFFF ^^^ (0xFFFF >>> 6) : Nat) = 0xFC00 := by decide
    have z : (0xFC00 &&& 0x1F : Nat) = 0 := by decide
    rw [e, Nat.and_distrib_right, z, Nat.or_zero, and_1F, Nat.shiftRight_eq_div_pow]
    omega

theorem and_800 (w : Nat) : w &&& 0x800 = 2048 * (w / 2048 % 2) := by
  have h := Nat.and_two_pow w 11
  have t := Nat.toNat_testBit w 11
  have e : (0x800 : Nat) = 2 ^ 11 := by decide
  rw [e, h, t]
  omega
/-- The pattern-level `asr16` is the arithmetic shift: on signed values it is
floor division by `2^6`. -/
theorem asr16_6_signed (w : Nat) : sint (asr16 w 6) = sint w / 64 := by
  have hw : w % 65536 < 65536 := Nat.mod_lt _ (by decide)
  unfold asr16
  split
  · rename_i h
    have e : (w % 65536) >>> 6 = w % 65536 / 64 := Nat.shiftRight_eq_div_pow _ 6
    rw [e]
    have h2 : w % 65536 / 64 < 32768 := by omega
    rw [sint_of_lt h2]
    unfold sint
    rw [if_pos h]
    omega
  · rename_i h
    have e : (w % 65536) >>> 6 = w % 65536 / 64 := Nat.shiftRight_eq_div_pow _ 6
    have c : (0xFFFF ^^^ (0xFFFF >>> 6) : Nat) = 2 ^ 10 * 63 := by decide
    have hb : w % 65536 / 64 < 2 ^ 10 := by
      show w % 65536 / 64 < 1024
      omega
    rw [e, c, Nat.lor_comm, ← Nat.mul_add_lt_is_or hb 63]
    unfold sint
    rw [if_neg h]
    have h3 : ¬ ((2 ^ 10 * 63 + w % 65536 / 64) % 65536 < 32768) := by omega
    rw [if_neg h3]
    omega

/-- The same for the shift by 11. -/
theorem asr16_11_signed (w : Nat) : sint (asr16 w 11) = sint w / 2048 := by
  have hw : w % 65536 < 65536 := Nat.mod_lt _ (by decide)
  unfold asr16
  split
  · rename_i h
    have e : (w % 65536) >>> 11 = w % 65536 / 2048 := Nat.shiftRight_eq_div_pow _ 11
    rw [e]
    have h2 : w % 65536 / 2048 < 32768 := by omega
    rw [sint_of_lt h2]
    unfold sint
    rw [if_pos h]
    omega
  · rename_i h
    have e : (w % 65536) >>> 11 = w % 65536 / 2048 := Nat.shiftRight_eq_div_pow _ 11
    have c : (0xFFFF ^^^ (0xFFFF >>> 11) : Nat) = 2 ^ 5 * 2047 := by decide
    have hb : w % 65536 / 2048 < 2 ^ 5 := by
      show w % 65536 / 2048 < 32
      omega
    rw [e, c, Nat.lor_comm, ← Nat.mul_add_lt_is_or hb 2047]
    unfold sint
    rw [if_neg h]
    have h3 : ¬ ((2 ^ 5 * 2047 + w % 65536 / 2048) % 65536 < 32768) := by omega
    rw [if_neg h3]
    omega

/-! ## Claims -/

set_option maxRecDepth 100000

/-- C1: from every listening state, the edge, the thirteen sampling ticks
(reading `p1 … p13`) and the framing tick all fire, and they leave
toggle = b2, address = b3 b4 b5 b6 b7 and command = b8 … b13, each most
significant bit first, where b_i is 1 when the line reads low at tick i. -/
theorem C1_end_to_end_decoding (s : State)
    (p1 p2 p3 p4 p5 p6 p7 p8 p9 p10 p11 p12 p13 pf : Nat) (hL : Listening s) :
    run s [Event.edge, Event.tick p1, Event.tick p2, Event.tick p3, Event.tick p4,
        Event.tick p5, Event.tick p6, Event.tick p7, Event.tick p8, Event.tick p9,
        Event.tick p10, Event.tick p11, Event.tick p12, Event.tick p13, Event.tick pf]
      = some (transmission s [p1, p2, p3, p4, p5, p6, p7, p8, p9, p10, p11, p12, p13] pf) ∧
    (transmission s [p1, p2, p3, p4, p5, p6, p7, p8, p9, p10, p11, p12, p13] pf).toggle
      = lineLow p2 ∧
    (transmission s [p1, p2, p3, p4, p5, p6, p7, p8, p9, p10, p11, p12, p13] pf).address
      = 16 * lineLow p3 + 8 * lineLow p4 + 4 * lineLow p5 + 2 * lineLow p6 + lineLow p7 ∧
    (transmission s [p1, p2, p3, p4, p5, p6, p7, p8, p9, p10, p11, p12, p13] pf).command
      = 32 * lineLow p8 + 16 * lineLow p9 + 8 * lineLow p10 + 4 * lineLow p11
        + 2 * lineLow p12 + lineLow p13 := by
  refine ⟨run_transmission s [p1, p2, p3, p4, p5, p6, p7, p8, p9, p10, p11, p12, p13] pf hL rfl, ?_⟩
  have hs := sampled_spec s [p1, p2, p3, p4, p5, p6, p7, p8, p9, p10, p11, p12, p13] hL.2.2 rfl
  have hc : 13 ≤ sint (sampleTicks (Port_1 s)
      [p1, p2, p3, p4, p5, p6, p7, p8, p9, p10, p11, p12, p13]).count := by
    rw [hs]; show (13 : Int) ≤ sint 13; decide
  have hd : (sampleTicks (Port_1 s)
      [p1, p2, p3, p4, p5, p6, p7, p8, p9, p10, p11, p12, p13]).data
      = accumulate 1 [p1, p2, p3, p4, p5, p6, p7, p8, p9, p10, p11, p12, p13] := by
    rw [hs]
  obtain ⟨fc, fa, ft, _, _⟩ := framing_fields pf _ hc
  unfold transmission
  rw [fc, fa, ft, hd, asr16_11_and_one, asr16_6_and_1F, and_3F]
  simp only [accumulate]
  have b1 := lineLow_le p1
  have b2 := lineLow_le p2
  have b3 := lineLow_le p3
  have b4 := lineLow_le p4
  have b5 := lineLow_le p5
  have b6 := lineLow_le p6
  have b7 := lineLow_le p7
  have b8 := lineLow_le p8
  have b9 := lineLow_le p9
  have b10 := lineLow_le p10
  have b11 := lineLow_le p11
  have b12 := lineLow_le p12
  have b13 := lineLow_le p13
  refine ⟨?_, ?_, ?_⟩ <;> omega

/-- Witness of C1: the transmission of toggle 0, address 00001, command 000000
received in the initial state. -/
theorem C1_end_to_end_decoding_witness :
    Listening (init 0) ∧
    (transmission (init 0) [0, 0x10, 0x10, 0x10, 0x10, 0x10, 0, 0x10, 0x10, 0x10, 0x10, 0x10,
        0x10] 0).toggle = lineLow 0x10 ∧
    (transmission (init 0) [0, 0x10, 0x10, 0x10, 0x10, 0x10, 0, 0x10, 0x10, 0x10, 0x10, 0x10,
        0x10] 0).address = 1 :=
  ⟨by decide,
   (C1_end_to_end_decoding (init 0) 0 0x10 0x10 0x10 0x10 0x10 0 0x10 0x10 0x10 0x10 0x10 0x10 0
      (by decide)).2.1,
   (C1_end_to_end_decoding (init 0) 0 0x10 0x10 0x10 0x10 0x10 0 0x10 0x10 0x10 0x10 0x10 0x10 0
      (by decide)).2.2.1⟩

/-- C2: whatever word `W` is held in `data` when the framing branch of `Timer0`
runs, the branch sets command = W & 0x3F, address = (W >> 6) & 0x1F and
toggle = (W >> 11) & 1, so that command < 64, address < 32 and toggle ≤ 1. -/
theorem C2_field_extraction (s : State) (p : Nat) (h : 13 ≤ sint s.count) :
    (Timer0 p s).command = s.data &&& 0x3F ∧
    (Timer0 p s).address = asr16 s.data 6 &&& 0x1F ∧
    (Timer0 p s).toggle = asr16 s.data 11 &&& 1 ∧
    (Timer0 p s).command < 64 ∧ (Timer0 p s).address < 32 ∧
    ((Timer0 p s).toggle = 0 ∨ (Timer0 p s).toggle = 1) := by
  obtain ⟨fc, fa, ft, _, _⟩ := framing_fields p s h
  refine ⟨fc, fa, ft, ?_, ?_, ?_⟩
  · rw [fc, and_3F]; omega
  · rw [fa, asr16_6_and_1F]; omega
  · rw [ft, asr16_11_and_one]; omega

/-- Witness of C2: the framing tick of the first transmission after power-up. -/
theorem C2_field_extraction_witness :
    13 ≤ sint (sampleTicks (Port_1 (init 0)) samplesAddr1Cmd0).count ∧
    (Timer0 0 (sampleTicks (Port_1 (init 0)) samplesAddr1Cmd0)).address < 32 :=
  ⟨by decide,
   (C2_field_extraction (sampleTicks (Port_1 (init 0)) samplesAddr1Cmd0) 0 (by decide)).2.2.2.2.1⟩

/-- C3: on every framing tick the frame is marked repeat (repeat = 1) exactly
when the decoded command equals `lastCommand` and the decoded toggle equals
`lastToggle`; and a frame marked repeat leaves `lastCommand`, `lastToggle` and
`P1OUT` unchanged. -/
theorem C3_repeat_marking (s : State) (p : Nat) (h : 13 ≤ sint s.count) :
    ((Timer0 p s).«repeat» = 1 ↔
      ((Timer0 p s).command = s.lastCommand ∧ (Timer0 p s).toggle = s.lastToggle)) ∧
    ((Timer0 p s).«repeat» = 1 →
      (Timer0 p s).lastCommand = s.lastCommand ∧ (Timer0 p s).lastToggle = s.lastToggle ∧
      (Timer0 p s).P1OUT = s.P1OUT) := by
  have hr := framing_repeat p s h
  have hl := framing_last p s h
  have ho := framing_P1OUT p s h
  by_cases hm : s.lastCommand = (Timer0 p s).command ∧ s.lastToggle = (Timer0 p s).toggle
  · rw [if_pos hm] at hr
    refine ⟨⟨fun _ => ⟨hm.1.symm, hm.2.symm⟩, fun _ => hr⟩, fun _ => ?_⟩
    refine ⟨hl.1.trans hm.1.symm, hl.2.trans hm.2.symm, ?_⟩
    rw [ho, hr]; rfl
  · rw [if_neg hm] at hr
    refine ⟨⟨fun h1 => ?_, fun h2 => absurd ⟨h2.1.symm, h2.2.symm⟩ hm⟩, fun h1 => ?_⟩
    · rw [hr] at h1; exact absurd h1 (by decide)
    · rw [hr] at h1; exact absurd h1 (by decide)

/-- Witness of C3: the framing tick of the first transmission after power-up,
which is marked repeat. -/
theorem C3_repeat_marking_witness :
    13 ≤ sint (sampleTicks (Port_1 (init 0)) samplesAddr1Cmd0).count ∧
    ((Timer0 0 (sampleTicks (Port_1 (init 0)) samplesAddr1Cmd0)).«repeat» = 1 →
      (Timer0 0 (sampleTicks (Port_1 (init 0)) samplesAddr1Cmd0)).lastCommand
        = (sampleTicks (Port_1 (init 0)) samplesAddr1Cmd0).lastCommand ∧
      (Timer0 0 (sampleTicks (Port_1 (init 0)) samplesAddr1Cmd0)).lastToggle
        = (sampleTicks (Port_1 (init 0)) samplesAddr1Cmd0).lastToggle ∧
      (Timer0 0 (sampleTicks (Port_1 (init 0)) samplesAddr1Cmd0)).P1OUT
        = (sampleTicks (Port_1 (init 0)) samplesAddr1Cmd0).P1OUT) :=
  ⟨by decide,
   (C3_repeat_marking (sampleTicks (Port_1 (init 0)) samplesAddr1Cmd0) 0 (by decide)).2⟩

/-- C4: on every framing tick whose decoded command differs from `lastCommand`
or whose decoded toggle differs from `lastToggle`, the frame is marked new
(repeat = 0) and (`lastCommand`, `lastToggle`) becomes the (command, toggle) of
that frame. -/
theorem C4_new_frame_acceptance (s : State) (p : Nat) (h : 13 ≤ sint s.count)
    (hnew : (Timer0 p s).command ≠ s.lastCommand ∨ (Timer0 p s).toggle ≠ s.lastToggle) :
    (Timer0 p s).«repeat» = 0 ∧
    (Timer0 p s).lastCommand = (Timer0 p s).command ∧
    (Timer0 p s).lastToggle = (Timer0 p s).toggle := by
  have hr := framing_repeat p s h
  have hl := framing_last p s h
  have hm : ¬ (s.lastCommand = (Timer0 p s).command ∧ s.lastToggle = (Timer0 p s).toggle) := by
    rintro ⟨h1, h2⟩
    rcases hnew with hn | hn
    · exact hn h1.symm
    · exact hn h2.symm
  rw [if_neg hm] at hr
  exact ⟨hr, hl.1, hl.2⟩

/-- Witness of C4: the framing tick of a transmission of command 1 received
first after power-up. -/
theorem C4_new_frame_acceptance_witness :
    13 ≤ sint (sampleTicks (Port_1 (init 0)) samplesCmd1Tgl0).count ∧
    (Timer0 0 (sampleTicks (Port_1 (init 0)) samplesCmd1Tgl0)).«repeat» = 0 ∧
    (Timer0 0 (sampleTicks (Port_1 (init 0)) samplesCmd1Tgl0)).lastCommand
      = (Timer0 0 (sampleTicks (Port_1 (init 0)) samplesCmd1Tgl0)).command ∧
    (Timer0 0 (sampleTicks (Port_1 (init 0)) samplesCmd1Tgl0)).lastToggle
      = (Timer0 0 (sampleTicks (Port_1 (init 0)) samplesCmd1Tgl0)).toggle :=
  ⟨by decide,
   C4_new_frame_acceptance (sampleTicks (Port_1 (init 0)) samplesCmd1Tgl0) 0 (by decide)
     (Or.inl (by decide))⟩

/-- C8: for every decoder state at a framing tick and every two accumulator
values that agree on the command bits (bits 0-5) and on the toggle bit (bit 11),
whatever their other bits, the framing tick yields the same repeat flag, the
same `lastCommand` and `lastToggle` and the same `P1OUT`. -/
theorem C8_address_independence (s : State) (w1 w2 p1 p2 : Nat) (h : 13 ≤ sint s.count)
    (hcmd : w1 &&& 0x3F = w2 &&& 0x3F) (htgl : w1 &&& 0x800 = w2 &&& 0x800) :
    (Timer0 p1 { s with data := w1 }).«repeat» = (Timer0 p2 { s with data := w2 }).«repeat» ∧
    (Timer0 p1 { s with data := w1 }).lastCommand
      = (Timer0 p2 { s with data := w2 }).lastCommand ∧
    (Timer0 p1 { s with data := w1 }).lastToggle
      = (Timer0 p2 { s with data := w2 }).lastToggle ∧
    (Timer0 p1 { s with data := w1 }).P1OUT = (Timer0 p2 { s with data := w2 }).P1OUT := by
  have h1 : 13 ≤ sint ({ s with data := w1 } : State).count := h
  have h2 : 13 ≤ sint ({ s with data := w2 } : State).count := h
  obtain ⟨c1, _, t1, _, _⟩ := framing_fields p1 _ h1
  obtain ⟨c2, _, t2, _, _⟩ := framing_fields p2 _ h2
  have ec : (Timer0 p1 { s with data := w1 }).command
      = (Timer0 p2 { s with data := w2 }).command := by
    rw [c1, c2]; exact hcmd
  have et : (Timer0 p1 { s with data := w1 }).toggle
      = (Timer0 p2 { s with data := w2 }).toggle := by
    rw [t1, t2, asr16_11_and_one, asr16_11_and_one]
    have a1 := and_800 w1
    have a2 := and_800 w2
    show w1 / 2048 % 2 = w2 / 2048 % 2
    omega
  have er : (Timer0 p1 { s with data := w1 }).«repeat»
      = (Timer0 p2 { s with data := w2 }).«repeat» := by
    rw [framing_repeat p1 _ h1, framing_repeat p2 _ h2, ec, et]
  have l1 := framing_last p1 _ h1
  have l2 := framing_last p2 _ h2
  refine ⟨er, ?_, ?_, ?_⟩
  · rw [l1.1, l2.1, ec]
  · rw [l1.2, l2.2, et]
  · rw [framing_P1OUT p1 _ h1, framing_P1OUT p2 _ h2, er, ec]

/-- Witness of C8: two words with addresses 1 and 2, both command 1, toggle 0. -/
theorem C8_address_independence_witness :
    (Timer0 0 { sampleTicks (Port_1 (init 0)) samplesCmd1Tgl0 with data := 12353 }).P1OUT
      = (Timer0 0 { sampleTicks (Port_1 (init 0)) samplesCmd1Tgl0 with data := 12417 }).P1OUT :=
  (C8_address_independence (sampleTicks (Port_1 (init 0)) samplesCmd1Tgl0) 12353 12417 0 0
    (by decide) (by decide) (by decide)).2.2.2

/-! ## Invariant of the reachable states -/

theorem Inv_init (p1out : Nat) : Inv (init p1out) := by
  refine ⟨rfl, Or.inl ⟨?_, ?_, rfl⟩⟩
  · exact (by decide : (16 &&& 16 : Nat) = 16)
  · exact (by decide : ¬ ((0 &&& 16 : Nat) = 16))

theorem Inv_listening (s : State) (hI : Inv s) (he : edgeEnabled s) : Listening s := by
  rcases hI.2 with h | h
  · exact h
  · exact absurd he h.1

theorem Inv_sampling (s : State) (hI : Inv s) (ht : timerEnabled s) :
    ¬ edgeEnabled s ∧ s.count ≤ 13 ∧ 2 ^ s.count ≤ s.data ∧ s.data < 2 ^ (s.count + 1) := by
  rcases hI.2 with h | h
  · exact absurd ht h.2.1
  · exact ⟨h.1, h.2.2⟩

theorem Inv_Port_1 (s : State) (hI : Inv s) (he : edgeEnabled s) : Inv (Port_1 s) := by
  have hL := Inv_listening s hI he
  obtain ⟨hT, _⟩ := hI
  have hc : (Port_1 s).count = 0 := hL.2.2
  have hd : (Port_1 s).data = 1 := rfl
  refine ⟨?_, Or.inr ⟨?_, Port_1_timerEnabled s, ?_, ?_, ?_⟩⟩
  · show s.TACCR0 &&& not16 CCIFG = T_INTERVAL
    rw [hT]; decide
  · show ¬ (s.P1IE &&& 0xEF &&& 16 = 16)
    rw [and_ef_bit4]; decide
  · omega
  · rw [hc, hd]; decide
  · rw [hc, hd]; decide

theorem Inv_Timer0 (p : Nat) (s : State) (hI : Inv s) (ht : timerEnabled s) :
    Inv (Timer0 p s) := by
  obtain ⟨hne, hc, h1, h2⟩ := Inv_sampling s hI ht
  have hT : s.TACCR0 = T_INTERVAL := hI.1
  by_cases h13 : s.count < 13
  · have hpos : 0 < s.data := lt_of_lt_of_le (Nat.two_pow_pos s.count) h1
    have hlt : s.data < 16384 := by
      have : 2 ^ (s.count + 1) ≤ 2 ^ 14 := Nat.pow_le_pow_right (by decide) (by omega)
      omega
    have hen := Timer0_sample_timerEnabled p s h13 hpos hlt
    have hstep := Timer0_sample p s h13 hpos hlt
    have hb := lineLow_le p
    have h3 : 2 ^ (s.count + 1) ≤ 2 * s.data + lineLow p := by rw [pow_succ]; omega
    have h4 : 2 * s.data + lineLow p < 2 ^ (s.count + 1 + 1) := by
      rw [pow_succ 2 (s.count+1)]; omega
    have hc' : (Timer0 p s).count = s.count + 1 := by rw [hstep]
    have hd' : (Timer0 p s).data = 2 * s.data + lineLow p := by rw [hstep]
    have hp' : (Timer0 p s).P1IE = s.P1IE := by rw [hstep]
    have hT' : (Timer0 p s).TACCR0 = s.TACCR0 := by rw [hstep]
    refine ⟨hT'.trans hT, Or.inr ⟨?_, hen, ?_, ?_, ?_⟩⟩
    · unfold edgeEnabled; rw [hp']; exact hne
    · rw [hc']; omega
    · rw [hc', hd']; exact h3
    · rw [hc', hd']; exact h4
  · have e13 : s.count = 13 := by omega
    have hf : 13 ≤ sint s.count := by rw [e13]; decide
    obtain ⟨_, _, _, hc0, _⟩ := framing_fields p s hf
    obtain ⟨he', ht'⟩ := framing_enables p s hf
    have hT' : (Timer0 p s).TACCR0 = s.TACCR0 := by
      rw [Timer0_framed p s hf, dispatch_eq, suppress_eq]; rfl
    exact ⟨hT'.trans hT, Or.inl ⟨he', ht', hc0⟩⟩

theorem Inv_step (s t : State) (e : Event) (hI : Inv s) (hs : step s e = some t) : Inv t := by
  cases e with
  | edge =>
    by_cases he : edgeEnabled s
    · simp only [step, he, if_true, Option.some.injEq] at hs
      rw [← hs]; exact Inv_Port_1 s hI he
    · simp [step, he] at hs
  | tick p =>
    by_cases ht : timerEnabled s
    · simp only [step, ht, if_true, Option.some.injEq] at hs
      rw [← hs]; exact Inv_Timer0 p s hI ht
    · simp [step, ht] at hs

theorem Inv_reachable (s : State) (h : Reachable s) : Inv s := by
  induction h with
  | start p1out => exact Inv_init p1out
  | next s t e _ hs ih => exact Inv_step s t e ih hs

theorem run_reachable (es : List Event) : ∀ (s t : State), Reachable s →
    run s es = some t → Reachable t := by
  induction es with
  | nil => intro s t hr h; simp only [run, Option.some.injEq] at h; rw [← h]; exact hr
  | cons e es ih =>
    intro s t hr h
    simp only [run] at h
    cases hs : step s e with
    | none => rw [hs] at h; simp at h
    | some u =>
      rw [hs] at h
      exact ih u t (Reachable.next s u e hr hs) h

/-- C9: in every state reachable from the initial state by edge and tick
events, each fired only when its interrupt is enabled, the IRDATA edge
interrupt enable and the timer interrupt enable are never both set; in
particular while a sample sequence is in progress (0 < count ≤ 13) the edge
interrupt is disabled. -/
theorem C9_mutual_exclusion (s : State) (h : Reachable s) :
    ¬ (edgeEnabled s ∧ timerEnabled s) ∧
    (0 < sint s.count ∧ sint s.count ≤ 13 → ¬ edgeEnabled s) := by
  have hI := Inv_reachable s h
  constructor
  · rintro ⟨he, ht⟩
    exact (Inv_listening s hI he).2.1 ht
  · rintro ⟨hpos, _⟩ he
    have h0 := (Inv_listening s hI he).2.2
    rw [h0] at hpos
    exact absurd hpos (by decide)

/-- Witness of C9: the state after the edge and three sampling ticks. -/
theorem C9_mutual_exclusion_witness :
    Reachable (sampleTicks (Port_1 (init 0)) [0, 0x10, 0]) ∧
    ¬ edgeEnabled (sampleTicks (Port_1 (init 0)) [0, 0x10, 0]) :=
  ⟨run_reachable [Event.edge, Event.tick 0, Event.tick 0x10, Event.tick 0] (init 0) _
      (Reachable.start 0) (by decide),
   (C9_mutual_exclusion (sampleTicks (Port_1 (init 0)) [0, 0x10, 0])
      (run_reachable [Event.edge, Event.tick 0, Event.tick 0x10, Event.tick 0] (init 0) _
        (Reachable.start 0) (by decide))).2 (by decide)⟩
/-! ## Counting the samples of a run -/

theorem step_collected (s t : State) (n : Nat) (e : Event) (hI : Inv s)
    (hn : timerEnabled s → n = s.count) (hs : step s e = some t) :
    timerEnabled t → collected s n e = t.count := by
  intro ht'
  cases e with
  | edge =>
    by_cases he : edgeEnabled s
    · simp only [step, he, if_true, Option.some.injEq] at hs
      have hL := Inv_listening s hI he
      rw [← hs]
      show 0 = s.count
      exact hL.2.2.symm
    · simp [step, he] at hs
  | tick p =>
    by_cases ht : timerEnabled s
    · simp only [step, ht, if_true, Option.some.injEq] at hs
      obtain ⟨_, hc, h1, h2⟩ := Inv_sampling s hI ht
      by_cases h13 : s.count < 13
      · have hpos : 0 < s.data := lt_of_lt_of_le (Nat.two_pow_pos s.count) h1
        have hlt : s.data < 16384 := by
          have : 2 ^ (s.count + 1) ≤ 2 ^ 14 := Nat.pow_le_pow_right (by decide) (by omega)
          omega
        have hstep := Timer0_sample p s h13 hpos hlt
        have hsc : sint s.count = (s.count : Int) := sint_of_lt (by omega)
        have hnf : ¬ (13 : Int) ≤ sint s.count := by rw [hsc]; omega
        have hc' : t.count = s.count + 1 := by rw [← hs, hstep]
        simp only [collected, hnf, if_false]
        rw [hc', hn ht]
      · have e13 : s.count = 13 := by omega
        have hf : 13 ≤ sint s.count := by rw [e13]; decide
        have := (framing_enables p s hf).2
        rw [hs] at this
        exact absurd ht' this
    · simp [step, ht] at hs

theorem step_collected_le (s t : State) (n : Nat) (e : Event) (hI : Inv s)
    (hn : timerEnabled s → n = s.count) (hle : n ≤ 13) (hs : step s e = some t) :
    collected s n e ≤ 13 := by
  cases e with
  | edge => exact Nat.zero_le 13
  | tick p =>
    by_cases ht : timerEnabled s
    · obtain ⟨_, hc, _, _⟩ := Inv_sampling s hI ht
      by_cases hf : 13 ≤ sint s.count
      · simp only [collected, hf, if_true]; exact hle
      · simp only [collected, hf, if_false]
        have hsc : sint s.count = (s.count : Int) := sint_of_lt (by omega)
        rw [hsc] at hf
        have := hn ht
        omega
    · simp [step, ht] at hs

theorem runCounting_inv (es : List Event) : ∀ (s t : State) (n m : Nat), Inv s →
    (timerEnabled s → n = s.count) → n ≤ 13 → runCounting s n es = some (t, m) →
    Inv t ∧ (timerEnabled t → m = t.count) ∧ m ≤ 13 := by
  induction es with
  | nil =>
    intro s t n m hI hn hle h
    simp only [runCounting, Option.some.injEq, Prod.mk.injEq] at h
    obtain ⟨e1, e2⟩ := h
    rw [← e1, ← e2]
    exact ⟨hI, hn, hle⟩
  | cons e es ih =>
    intro s t n m hI hn hle h
    simp only [runCounting] at h
    cases hs : step s e with
    | none => rw [hs] at h; simp at h
    | some u =>
      rw [hs] at h
      exact ih u t (collected s n e) m (Inv_step s u e hI hs)
        (step_collected s u n e hI hn hs) (step_collected_le s u n e hI hn hle hs) h

theorem runCounting_ticks (es : List Event) : ∀ (s t : State) (n m k : Nat), Inv s →
    (timerEnabled s → n = k) → runCounting s n es = some (t, m) →
    timerEnabled t → m = ticksSinceEdge k es := by
  induction es with
  | nil =>
    intro s t n m k _ hn h ht
    simp only [runCounting, Option.some.injEq, Prod.mk.injEq] at h
    obtain ⟨e1, e2⟩ := h
    rw [← e2]
    exact hn (by rw [e1]; exact ht)
  | cons e es ih =>
    intro s t n m k hI hn h ht
    simp only [runCounting] at h
    cases hs : step s e with
    | none => rw [hs] at h; simp at h
    | some u =>
      rw [hs] at h
      have hIu := Inv_step s u e hI hs
      cases e with
      | edge =>
        exact ih u t (collected s n Event.edge) m 0 hIu (fun _ => rfl) h ht
      | tick p =>
        have hts : timerEnabled s := by
          by_contra hne
          simp [step, hne] at hs
        have hu : u = Timer0 p s := by
          simp only [step, hts, if_true, Option.some.injEq] at hs
          exact hs.symm
        refine ih u t (collected s n (Event.tick p)) m (k + 1) hIu (fun htu => ?_) h ht
        by_cases hf : 13 ≤ sint s.count
        · have := (framing_enables p s hf).2
          rw [← hu] at this
          exact absurd htu this
        · simp only [collected, hf, if_false]
          rw [hn hts]

/-- C10: along every run from the initial state, when a timer tick is about
to fire, the number `n` of samples collected since the most recent edge is the
number of ticks that followed that edge, equals count and never exceeds 13;
the tick emits a frame (framing branch, guard `count >= 13`) if and only if
`n` is exactly 13. At n = 13 it writes command, address and toggle from the
accumulated word of the start bit and 13 samples, resets count and re-arms the
edge interrupt; after fewer samples it leaves command, address and toggle
as they were and collects one more sample. -/
theorem C10_frame_emission (p1out : Nat) (es : List Event) (s : State) (n p : Nat)
    (hrun : runCounting (init p1out) 0 es = some (s, n)) (hen : timerEnabled s) :
    (13 ≤ sint s.count ↔ n = 13) ∧
    (Timer0 p s = framing { s with TACCTL0 := s.TACCTL0 &&& not16 CCIE } ↔ n = 13) ∧
    n ≤ 13 ∧
    n = ticksSinceEdge 0 es ∧ n = s.count ∧
    (n = 13 →
      (Timer0 p s).command = s.data &&& 0x3F ∧
      (Timer0 p s).address = asr16 s.data 6 &&& 0x1F ∧
      (Timer0 p s).toggle = asr16 s.data 11 &&& 1 ∧
      2 ^ 13 ≤ s.data ∧ s.data < 2 ^ 14 ∧
      (Timer0 p s).count = 0 ∧
      edgeEnabled (Timer0 p s) ∧ ¬ timerEnabled (Timer0 p s)) ∧
    (n < 13 →
      (Timer0 p s).command = s.command ∧
      (Timer0 p s).address = s.address ∧
      (Timer0 p s).toggle = s.toggle ∧
      (Timer0 p s).data = 2 * s.data + lineLow p ∧
      (Timer0 p s).count = n + 1 ∧
      ¬ edgeEnabled (Timer0 p s) ∧ timerEnabled (Timer0 p s)) := by
  obtain ⟨hI, hn, hle⟩ := runCounting_inv es (init p1out) s 0 n (Inv_init p1out)
    (fun _ => rfl) (by decide) hrun
  have hticks := runCounting_ticks es (init p1out) s 0 n 0 (Inv_init p1out)
    (fun _ => rfl) hrun hen
  have hc := hn hen
  have hsc : sint s.count = (s.count : Int) := sint_of_lt (by omega)
  have hg : 13 ≤ sint s.count ↔ n = 13 := by
    rw [hsc]; constructor <;> intro h <;> omega
  obtain ⟨hoff, _, h1, h2⟩ := Inv_sampling s hI hen
  have hsample : s.count < 13 →
      Timer0 p s = { s with TACCTL0 := (s.TACCTL0 &&& not16 CCIE) ||| CCIE,
                            data := 2 * s.data + lineLow p,
                            count := s.count + 1 } := by
    intro hlt
    have hpos : 0 < s.data := lt_of_lt_of_le (Nat.two_pow_pos s.count) h1
    have hlt2 : s.data < 16384 := by
      have : 2 ^ (s.count + 1) ≤ 2 ^ 14 := Nat.pow_le_pow_right (by decide) (by omega)
      omega
    exact Timer0_sample p s hlt hpos hlt2
  refine ⟨hg, ⟨fun hT => ?_, fun h13 => Timer0_frame p s (hg.mpr h13)⟩, hle, hticks, hc,
    fun h13 => ?_, fun hlt => ?_⟩
  · by_contra hne
    have hstep := hsample (by omega)
    have hc1 : (Timer0 p s).count = s.count + 1 := by rw [hstep]
    have hc2 : (framing { s with TACCTL0 := s.TACCTL0 &&& not16 CCIE }).count = 0 := by
      show (dispatch (suppress (framed s))).count = 0
      rw [dispatch_eq, suppress_eq]; rfl
    rw [hT, hc2] at hc1
    omega
  · have hf := hg.mpr h13
    obtain ⟨fc, fa, ft, f0, _⟩ := framing_fields p s hf
    obtain ⟨fe, fne⟩ := framing_enables p s hf
    have e13 : s.count = 13 := by omega
    rw [e13] at h1 h2
    exact ⟨fc, fa, ft, h1, h2, f0, fe, fne⟩
  · have hstep := hsample (by omega)
    have hen' : timerEnabled (Timer0 p s) := by
      rw [hstep]
      simp only [timerEnabled, CCIE]
      exact or_bit4 _
    have hp' : (Timer0 p s).P1IE = s.P1IE := by rw [hstep]
    refine ⟨by rw [hstep], by rw [hstep], by rw [hstep], by rw [hstep], ?_, ?_, hen'⟩
    · rw [hstep]; show s.count + 1 = n + 1; omega
    · unfold edgeEnabled; rw [hp']; exact hoff

/-- Witness of C10: after the edge and thirteen sampling ticks the next tick
is the framing tick, and it writes address 1 from the accumulated word; after
the edge and three sampling ticks the next tick is a sampling tick and leaves
the address as it was. -/
theorem C10_frame_emission_witness :
    timerEnabled (sampleTicks (Port_1 (init 0)) samplesAddr1Cmd0) ∧
    (13 ≤ sint (sampleTicks (Port_1 (init 0)) samplesAddr1Cmd0).count ↔ 13 = 13) ∧
    (Timer0 0 (sampleTicks (Port_1 (init 0)) samplesAddr1Cmd0)).address
      = asr16 (sampleTicks (Port_1 (init 0)) samplesAddr1Cmd0).data 6 &&& 0x1F ∧
    (Timer0 0 (sampleTicks (Port_1 (init 0)) samplesAddr1Cmd0)).address = 1 ∧
    (Timer0 0 (sampleTicks (Port_1 (init 0)) [0, 0x10, 0])).address
      = (sampleTicks (Port_1 (init 0)) [0, 0x10, 0]).address :=
  ⟨by decide,
   (C10_frame_emission 0 (Event.edge :: samplesAddr1Cmd0.map Event.tick)
      (sampleTicks (Port_1 (init 0)) samplesAddr1Cmd0) 13 0 (by decide) (by decide)).1,
   ((C10_frame_emission 0 (Event.edge :: samplesAddr1Cmd0.map Event.tick)
      (sampleTicks (Port_1 (init 0)) samplesAddr1Cmd0) 13 0 (by decide) (by decide)).2.2.2.2.2.1
      rfl).2.1,
   by decide,
   ((C10_frame_emission 0 [Event.edge, Event.tick 0, Event.tick 0x10, Event.tick 0]
      (sampleTicks (Port_1 (init 0)) [0, 0x10, 0]) 3 0 (by decide) (by decide)).2.2.2.2.2.2
      (by decide)).2.1⟩

/-! ## Consecutive transmissions -/

theorem transmission_framing (s : State) (ps : List Nat) (h0 : s.count = 0)
    (hlen : ps.length = 13) :
    13 ≤ sint (sampleTicks (Port_1 s) ps).count ∧
    (sampleTicks (Port_1 s) ps).lastCommand = s.lastCommand ∧
    (sampleTicks (Port_1 s) ps).lastToggle = s.lastToggle ∧
    (sampleTicks (Port_1 s) ps).P1OUT = s.P1OUT := by
  have h := sampled_spec s ps h0 hlen
  refine ⟨?_, ?_, ?_, ?_⟩
  · rw [h]; show (13 : Int) ≤ sint 13; decide
  · rw [h]; rfl
  · rw [h]; rfl
  · rw [h]; rfl

theorem transmission_listening (s : State) (ps : List Nat) (pf : Nat) (h0 : s.count = 0)
    (hlen : ps.length = 13) : Listening (transmission s ps pf) := by
  obtain ⟨hf, _⟩ := transmission_framing s ps h0 hlen
  obtain ⟨he, ht⟩ := framing_enables pf _ hf
  exact ⟨he, ht, (framing_fields pf _ hf).2.2.2.1⟩

theorem transmission_repeat (s : State) (ps : List Nat) (pf : Nat) (h0 : s.count = 0)
    (hlen : ps.length = 13) :
    (transmission s ps pf).«repeat» =
      if s.lastCommand = (transmission s ps pf).command ∧
          s.lastToggle = (transmission s ps pf).toggle then 1 else 0 := by
  obtain ⟨hf, hc, ht, _⟩ := transmission_framing s ps h0 hlen
  have := framing_repeat pf _ hf
  rw [hc, ht] at this
  exact this

theorem transmission_last (s : State) (ps : List Nat) (pf : Nat) (h0 : s.count = 0)
    (hlen : ps.length = 13) :
    (transmission s ps pf).lastCommand = (transmission s ps pf).command ∧
    (transmission s ps pf).lastToggle = (transmission s ps pf).toggle :=
  framing_last pf _ (transmission_framing s ps h0 hlen).1

theorem feed_repeats (fs : List (List Nat × Nat)) : ∀ (s : State) (c tg : Nat),
    s.count = 0 → (∀ f ∈ fs, f.1.length = 13) →
    (∀ t ∈ feed s fs, t.command = c ∧ t.toggle = tg) →
    s.lastCommand = c → s.lastToggle = tg →
    (feed s fs).map (fun t => t.«repeat») = List.replicate fs.length 1 := by
  induction fs with
  | nil => intro s c tg _ _ _ _ _; rfl
  | cons f fs ih =>
    intro s c tg h0 hlen hdec hc ht
    have hl : f.1.length = 13 := hlen f (List.mem_cons_self f fs)
    have hd := hdec (transmission s f.1 f.2) (by simp [feed])
    have hr := transmission_repeat s f.1 f.2 h0 hl
    rw [hd.1, hd.2, if_pos ⟨hc, ht⟩] at hr
    have hlast := transmission_last s f.1 f.2 h0 hl
    have hrest := ih (transmission s f.1 f.2) c tg
      (transmission_listening s f.1 f.2 h0 hl).2.2
      (fun g hg => hlen g (List.mem_cons_of_mem f hg))
      (fun t ht' => hdec t (by simp only [feed, List.mem_cons]; exact Or.inr ht'))
      (hlast.1.trans hd.1) (hlast.2.trans hd.2)
    simp only [feed, List.map_cons, List.length_cons, List.replicate_succ, hr, hrest]

/-- C5 (amended): from every listening state whose (`lastCommand`,
`lastToggle`) differs from (command, toggle), feeding N ≥ 1 consecutive
transmissions that all decode to that command and toggle marks the first one
new (repeat = 0, the one dispatch event) and the remaining N-1 repeat
(repeat = 1). -/
theorem C5_repeat_idempotence (s : State) (fs : List (List Nat × Nat)) (c tg : Nat)
    (hL : Listening s) (hlen : ∀ f ∈ fs, f.1.length = 13) (hne : fs ≠ [])
    (hdec : ∀ t ∈ feed s fs, t.command = c ∧ t.toggle = tg)
    (hnew : s.lastCommand ≠ c ∨ s.lastToggle ≠ tg) :
    (feed s fs).map (fun t => t.«repeat») = 0 :: List.replicate (fs.length - 1) 1 := by
  cases fs with
  | nil => exact absurd rfl hne
  | cons f fs =>
    have h0 := hL.2.2
    have hl : f.1.length = 13 := hlen f (List.mem_cons_self f fs)
    have hd := hdec (transmission s f.1 f.2) (by simp [feed])
    have hr := transmission_repeat s f.1 f.2 h0 hl
    have hm : ¬ (s.lastCommand = c ∧ s.lastToggle = tg) := by
      rintro ⟨a, b⟩
      rcases hnew with h | h
      · exact h a
      · exact h b
    rw [hd.1, hd.2, if_neg hm] at hr
    have hlast := transmission_last s f.1 f.2 h0 hl
    have hrest := feed_repeats fs (transmission s f.1 f.2) c tg
      (transmission_listening s f.1 f.2 h0 hl).2.2
      (fun g hg => hlen g (List.mem_cons_of_mem f hg))
      (fun t ht' => hdec t (by simp only [feed, List.mem_cons]; exact Or.inr ht'))
      (hlast.1.trans hd.1) (hlast.2.trans hd.2)
    simp only [feed, List.map_cons, List.length_cons, Nat.add_sub_cancel, hr, hrest]

/-- Witness of C5: three transmissions of command 1, toggle 0 after power-up. -/
theorem C5_repeat_idempotence_witness :
    Listening (init 0) ∧
    (feed (init 0) [(samplesCmd1Tgl0, 0), (samplesCmd1Tgl0, 0), (samplesCmd1Tgl0, 0)]).map
      (fun t => t.«repeat») = [0, 1, 1] :=
  ⟨by decide,
   C5_repeat_idempotence (init 0)
     [(samplesCmd1Tgl0, 0), (samplesCmd1Tgl0, 0), (samplesCmd1Tgl0, 0)] 1 0
     (by decide) (by decide) (by decide) (by decide) (Or.inl (by decide))⟩

/-- C5 as stated fails: in the reachable listening state left by a transmission
of command 1, toggle 0, a further transmission of command 1, toggle 0 is
marked repeat, so feeding N = 1 such frame produces no dispatch event. -/
theorem C5_counterexample :
    ¬ (∀ (s : State) (fs : List (List Nat × Nat)) (c tg : Nat),
        Reachable s → Listening s → (∀ f ∈ fs, f.1.length = 13) → fs ≠ [] →
        (∀ t ∈ feed s fs, t.command = c ∧ t.toggle = tg) →
        (feed s fs).map (fun t => t.«repeat») = 0 :: List.replicate (fs.length - 1) 1) := by
  intro h
  have hr : Reachable (transmission (init 0) samplesCmd1Tgl0 0) :=
    run_reachable (transmissionEvents samplesCmd1Tgl0 0) (init 0) _ (Reachable.start 0)
      (by decide)
  have := h (transmission (init 0) samplesCmd1Tgl0 0) [(samplesCmd1Tgl0, 0)] 1 0 hr
    (by decide) (by decide) (by decide) (by decide)
  exact absurd this (by decide)

/-- C6 (amended): from every listening state, of two consecutive transmissions
with the same command but different toggle bits the second is never marked
repeat, and the first is not marked repeat whenever its command or its toggle
differs from the `lastCommand`, `lastToggle` held before it. -/
theorem C6_toggle_flip (s : State) (ps1 ps2 : List Nat) (pf1 pf2 : Nat) (hL : Listening s)
    (hl1 : ps1.length = 13) (hl2 : ps2.length = 13)
    (_hcmd : (transmission s ps1 pf1).command
      = (transmission (transmission s ps1 pf1) ps2 pf2).command)
    (htgl : (transmission s ps1 pf1).toggle
      ≠ (transmission (transmission s ps1 pf1) ps2 pf2).toggle) :
    (transmission (transmission s ps1 pf1) ps2 pf2).«repeat» = 0 ∧
    ((s.lastCommand ≠ (transmission s ps1 pf1).command ∨
        s.lastToggle ≠ (transmission s ps1 pf1).toggle) →
      (transmission s ps1 pf1).«repeat» = 0) := by
  have h0 := hL.2.2
  have hL1 := transmission_listening s ps1 pf1 h0 hl1
  have hlast := transmission_last s ps1 pf1 h0 hl1
  have r2 := transmission_repeat (transmission s ps1 pf1) ps2 pf2 hL1.2.2 hl2
  have r1 := transmission_repeat s ps1 pf1 h0 hl1
  constructor
  · rw [r2, if_neg]
    rintro ⟨_, b⟩
    exact htgl (hlast.2.symm.trans b)
  · intro hnew
    rw [r1, if_neg]
    rintro ⟨a, b⟩
    rcases hnew with h | h
    · exact h a
    · exact h b

/-- Witness of C6: after power-up, command 1 with toggle 0 and then command 1
with toggle 1. -/
theorem C6_toggle_flip_witness :
    Listening (init 0) ∧
    (transmission (transmission (init 0) samplesCmd1Tgl0 0) samplesCmd1Tgl1 0).«repeat» = 0 :=
  ⟨by decide,
   (C6_toggle_flip (init 0) samplesCmd1Tgl0 samplesCmd1Tgl1 0 0 (by decide) (by decide)
      (by decide) (by decide) (by decide)).1⟩

/-- C6 as stated fails: in the reachable listening state left by a transmission
of command 1, toggle 0, the first of the two transmissions (command 1, toggle 0)
and (command 1, toggle 1) is marked repeat. -/
theorem C6_counterexample :
    ¬ (∀ (s : State) (ps1 ps2 : List Nat) (pf1 pf2 : Nat),
        Reachable s → Listening s → ps1.length = 13 → ps2.length = 13 →
        (transmission s ps1 pf1).command
          = (transmission (transmission s ps1 pf1) ps2 pf2).command →
        (transmission s ps1 pf1).toggle
          ≠ (transmission (transmission s ps1 pf1) ps2 pf2).toggle →
        (transmission s ps1 pf1).«repeat» = 0 ∧
        (transmission (transmission s ps1 pf1) ps2 pf2).«repeat» = 0) := by
  intro h
  have hr : Reachable (transmission (init 0) samplesCmd1Tgl0 0) :=
    run_reachable (transmissionEvents samplesCmd1Tgl0 0) (init 0) _ (Reachable.start 0)
      (by decide)
  have := (h (transmission (init 0) samplesCmd1Tgl0 0) samplesCmd1Tgl0 samplesCmd1Tgl1 0 0 hr
    (by decide) (by decide) (by decide) (by decide) (by decide)).1
  exact absurd this (by decide)

/-- C7 (the code at the failing input): after power-up the transmission of
toggle 0, address 00001, command 000000 fires, accumulates the word
0b11_0_00001_000000 and decodes to address 1, command 0, toggle 0; but because
`lastCommand` and `lastToggle` start at 0 this first occurrence is marked
repeat and the red LED bit of `P1OUT` is not toggled. -/
theorem C7_first_frame_suppressed :
    run (init 0) (transmissionEvents samplesAddr1Cmd0 0)
      = some (transmission (init 0) samplesAddr1Cmd0 0) ∧
    (sampleTicks (Port_1 (init 0)) samplesAddr1Cmd0).data = 0b11000001000000 ∧
    (transmission (init 0) samplesAddr1Cmd0 0).address = 1 ∧
    (transmission (init 0) samplesAddr1Cmd0 0).command = 0 ∧
    (transmission (init 0) samplesAddr1Cmd0 0).toggle = 0 ∧
    (transmission (init 0) samplesAddr1Cmd0 0).«repeat» = 1 ∧
    (transmission (init 0) samplesAddr1Cmd0 0).P1OUT = (init 0).P1OUT := by
  decide
/-! ## Sampling sequences -/

theorem Port_1_edge_off (s : State) : ¬ edgeEnabled (Port_1 s) := by
  show ¬ (s.P1IE &&& 0xEF &&& 16 = 16)
  rw [and_ef_bit4]; decide

theorem sampleTicks_after_edge (s : State) (ps : List Nat) (h0 : s.count = 0)
    (hlen : ps.length ≤ 13) :
    sampleTicks (Port_1 s) ps =
      { Port_1 s with TACCTL0 := (sampleTicks (Port_1 s) ps).TACCTL0,
                      data := accumulate 1 ps, count := ps.length } := by
  have hc : (Port_1 s).count = 0 := h0
  have hd : (Port_1 s).data = 1 := rfl
  have := sampleTicks_spec ps (Port_1 s) (by omega) (by rw [hc, hd]; decide)
    (by rw [hc, hd]; decide)
  rw [hc, hd, Nat.zero_add] at this
  exact this

theorem accumulate_eq (ps : List Nat) : ∀ (d : Nat),
    accumulate d ps = d * 2 ^ ps.length + msbValue (ps.map lineLow) := by
  induction ps with
  | nil => intro d; simp [accumulate, msbValue]
  | cons p ps ih =>
    intro d
    simp only [accumulate, List.map_cons, msbValue, List.length_cons, List.length_map, ih]
    rw [pow_succ]
    ring

/-- C11: from every listening state and whatever the thirteen line samples
and the input at the framing tick, the edge and the fourteen ticks all fire;
the edge interrupt is disabled after the edge and after each of the sampling
ticks; and the framing tick leaves the edge interrupt enabled, the timer
interrupt disabled and count = 0. -/
theorem C11_return_to_listening (s : State) (ps : List Nat) (pf : Nat) (hL : Listening s)
    (hlen : ps.length = 13) :
    run s (transmissionEvents ps pf) = some (transmission s ps pf) ∧
    (∀ k, k ≤ 13 → ¬ edgeEnabled (sampleTicks (Port_1 s) (ps.take k))) ∧
    edgeEnabled (transmission s ps pf) ∧ ¬ timerEnabled (transmission s ps pf) ∧
    (transmission s ps pf).count = 0 := by
  refine ⟨run_transmission s ps pf hL hlen, ?_, transmission_listening s ps pf hL.2.2 hlen⟩
  intro k hk
  have hl : (ps.take k).length ≤ 13 := by
    rw [List.length_take]; omega
  have h := sampleTicks_after_edge s (ps.take k) hL.2.2 hl
  have hp : (sampleTicks (Port_1 s) (ps.take k)).P1IE = (Port_1 s).P1IE := by rw [h]
  unfold edgeEnabled
  rw [hp]
  exact Port_1_edge_off s

/-- Witness of C11: the first transmission after power-up. -/
theorem C11_return_to_listening_witness :
    Listening (init 0) ∧
    run (init 0) (transmissionEvents samplesAddr1Cmd0 0)
      = some (transmission (init 0) samplesAddr1Cmd0 0) ∧
    (transmission (init 0) samplesAddr1Cmd0 0).count = 0 :=
  ⟨by decide,
   (C11_return_to_listening (init 0) samplesAddr1Cmd0 0 (by decide) (by decide)).1,
   (C11_return_to_listening (init 0) samplesAddr1Cmd0 0 (by decide) (by decide)).2.2.2.2⟩

/-- C13: from every listening state, for every k ≤ 13 and line samples
`p1 … pk`, the edge and the k sampling ticks fire and leave
data = 2^k + the sum of b_i * 2^(k-i): the implicit start bit followed by the
sampled bits, earliest most significant. -/
theorem C13_msb_first_accumulation (s : State) (ps : List Nat) (hL : Listening s)
    (hk : ps.length ≤ 13) :
    run s (Event.edge :: ps.map Event.tick) = some (sampleTicks (Port_1 s) ps) ∧
    (sampleTicks (Port_1 s) ps).data = 2 ^ ps.length + msbValue (ps.map lineLow) := by
  have hc : (Port_1 s).count = 0 := hL.2.2
  have hd : (Port_1 s).data = 1 := rfl
  constructor
  · have h1 := run_sampleTicks ps (Port_1 s) (Port_1_timerEnabled s) (by omega)
      (by rw [hc, hd]; decide) (by rw [hc, hd]; decide)
    simp only [run, step, hL.1, if_true, Option.some_bind, h1]
  · have h := sampleTicks_after_edge s ps hL.2.2 hk
    have e : (sampleTicks (Port_1 s) ps).data = accumulate 1 ps := by rw [h]
    rw [e, accumulate_eq, Nat.one_mul]

/-- Witness of C13: the edge and the samples low, high, low after power-up
accumulate 0b1101. -/
theorem C13_msb_first_accumulation_witness :
    Listening (init 0) ∧
    (sampleTicks (Port_1 (init 0)) [0, 0x10, 0]).data = 2 ^ 3 + msbValue [1, 0, 1] :=
  ⟨by decide,
   (C13_msb_first_accumulation (init 0) [0, 0x10, 0] (by decide) (by decide)).2⟩
theorem or_one_mod_two (x : Nat) : (x ||| 1) % 2 = 1 := by
  rw [← Nat.and_one_is_mod, Nat.and_distrib_right, Nat.and_one_is_mod]
  rcases Nat.mod_two_eq_zero_or_one x with h | h <;> rw [h] <;> decide

theorem Timer0_sampling (p : Nat) (s : State) (hc : ¬ 13 ≤ sint s.count) :
    Timer0 p s = sampling p { s with TACCTL0 := s.TACCTL0 &&& not16 CCIE } := by
  unfold Timer0
  simp only [hc, if_false]

theorem sampling_data (p : Nat) (s : State) :
    (sampling p s).data =
      if p &&& IRDATA ≠ IRDATA then (if 0 < sint s.data then shl16 s.data else s.data) ||| 1
      else (if 0 < sint s.data then shl16 s.data else s.data) := by
  unfold sampling
  by_cases hd : 0 < sint s.data <;> by_cases hp : p &&& IRDATA = IRDATA <;> simp [hd, hp]

/-- C12 (amended): on every sampling tick, if the line reads low (the
active-low sensor is asserted) a 1 is ORed into the low bit of the accumulator,
and if the line reads high nothing is ORed in, so that after the shift (taken
when data > 0) the low bit is 0. -/
theorem C12_sampling_polarity (s : State) (p : Nat) (hc : ¬ 13 ≤ sint s.count) :
    (p &&& IRDATA ≠ IRDATA →
      (Timer0 p s).data = (if 0 < sint s.data then shl16 s.data else s.data) ||| 1 ∧
      (Timer0 p s).data % 2 = 1) ∧
    (p &&& IRDATA = IRDATA →
      (Timer0 p s).data = (if 0 < sint s.data then shl16 s.data else s.data) ∧
      (0 < sint s.data → (Timer0 p s).data % 2 = 0)) := by
  have hd := sampling_data p { s with TACCTL0 := s.TACCTL0 &&& not16 CCIE }
  rw [← Timer0_sampling p s hc] at hd
  constructor
  · intro hp
    rw [if_pos hp] at hd
    refine ⟨hd, ?_⟩
    rw [hd]; exact or_one_mod_two _
  · intro hp
    rw [if_neg (not_not.mpr hp)] at hd
    refine ⟨hd, fun hpos => ?_⟩
    have hpos' : 0 < sint ({ s with TACCTL0 := s.TACCTL0 &&& not16 CCIE } : State).data := hpos
    rw [hd, if_pos hpos']
    show shl16 s.data % 2 = 0
    unfold shl16; omega

/-- Witness of C12: the first sampling tick after power-up, the line reading
low. -/
theorem C12_sampling_polarity_witness :
    ¬ 13 ≤ sint (Port_1 (init 0)).count ∧ (Timer0 0 (Port_1 (init 0))).data % 2 = 1 :=
  ⟨by decide,
   ((C12_sampling_polarity (Port_1 (init 0)) 0 (by decide)).1 (by decide)).2⟩

/-- C12 as stated fails: on the first sampling tick after power-up a line
reading high (not asserted) leaves the low bit 0, and a line reading low
(asserted) sets it to 1. -/
theorem C12_counterexample :
    ¬ (∀ (s : State) (p : Nat), Reachable s → timerEnabled s → ¬ 13 ≤ sint s.count →
        (p &&& IRDATA = IRDATA → (Timer0 p s).data % 2 = 1) ∧
        (p &&& IRDATA ≠ IRDATA → (Timer0 p s).data % 2 = 0)) := by
  intro h
  have hr : Reachable (Port_1 (init 0)) :=
    run_reachable [Event.edge] (init 0) _ (Reachable.start 0) (by decide)
  have := (h (Port_1 (init 0)) 0x10 hr (by decide) (by decide)).1 (by decide)
  exact absurd this (by decide)
/-! ## The accumulator in the reachable states -/

theorem reachable_data_lt (s : State) (h : Reachable s) : s.data < 16384 := by
  induction h with
  | start p1out => exact (by decide : (0 : Nat) < 16384)
  | next s t e hr hs ih =>
    have hI := Inv_reachable s hr
    cases e with
    | edge =>
      by_cases he : edgeEnabled s
      · simp only [step, he, if_true, Option.some.injEq] at hs
        rw [← hs]; exact (by decide : (1 : Nat) < 16384)
      · simp [step, he] at hs
    | tick p =>
      by_cases ht : timerEnabled s
      · simp only [step, ht, if_true, Option.some.injEq] at hs
        obtain ⟨_, hc, h1, h2⟩ := Inv_sampling s hI ht
        by_cases h13 : s.count < 13
        · have hpos : 0 < s.data := lt_of_lt_of_le (Nat.two_pow_pos s.count) h1
          have hle : 2 ^ (s.count + 1) ≤ 2 ^ 13 := Nat.pow_le_pow_right (by decide) (by omega)
          have hstep := Timer0_sample p s h13 hpos (by omega)
          have hb := lineLow_le p
          have hd' : t.data = 2 * s.data + lineLow p := by rw [← hs, hstep]
          rw [hd']; omega
        · have e13 : s.count = 13 := by omega
          have hf : 13 ≤ sint s.count := by rw [e13]; decide
          have hd' : t.data = s.data := by rw [← hs]; exact (framing_fields p s hf).2.2.2.2
          rw [hd']; exact ih
      · simp [step, ht] at hs

/-- C14 (amended): in every reachable state the accumulator holds at most 14
bits, the implicit start bit included: data < 2^14; and the word decoded at
every framing tick is a 14-bit value with the start bit at bit 13. -/
theorem C14_accumulator_width (s : State) (h : Reachable s) :
    s.data < 2 ^ 14 ∧
    (timerEnabled s → 13 ≤ sint s.count → 2 ^ 13 ≤ s.data ∧ s.data < 2 ^ 14) := by
  have hlt := reachable_data_lt s h
  refine ⟨hlt, fun ht hf => ⟨?_, hlt⟩⟩
  obtain ⟨_, hc, h1, _⟩ := Inv_sampling s (Inv_reachable s h) ht
  have hsc : sint s.count = (s.count : Int) := sint_of_lt (by omega)
  rw [hsc] at hf
  have e13 : s.count = 13 := by omega
  rw [e13] at h1
  exact h1

/-- Witness of C14: the state at the framing tick of the first transmission
after power-up. -/
theorem C14_accumulator_width_witness :
    Reachable (sampleTicks (Port_1 (init 0)) samplesAddr1Cmd0) ∧
    (sampleTicks (Port_1 (init 0)) samplesAddr1Cmd0).data < 2 ^ 14 :=
  ⟨run_reachable (Event.edge :: samplesAddr1Cmd0.map Event.tick) (init 0) _
      (Reachable.start 0) (by decide),
   (C14_accumulator_width (sampleTicks (Port_1 (init 0)) samplesAddr1Cmd0)
      (run_reachable (Event.edge :: samplesAddr1Cmd0.map Event.tick) (init 0) _
        (Reachable.start 0) (by decide))).1⟩

/-- C14 as stated fails: after the edge and thirteen sampling ticks the
accumulator holds 0b11_0_00001_000000, which is not below 2^13. -/
theorem C14_counterexample : ¬ (∀ (s : State), Reachable s → s.data < 2 ^ 13) := by
  intro h
  have hr : Reachable (sampleTicks (Port_1 (init 0)) samplesAddr1Cmd0) :=
    run_reachable (Event.edge :: samplesAddr1Cmd0.map Event.tick) (init 0) _
      (Reachable.start 0) (by decide)
  exact absurd (h _ hr) (by decide)

/-- C15 (amended): the sample counter and the accumulator are both reset
before any sample of a transmission is taken, but by different handlers: the
framing tick resets count and leaves data holding the decoded word, and the
edge handler, which runs only with count = 0, resets data to the start bit; so
in every reachable state with the timer interrupt enabled data holds the start
bit followed by exactly count samples. -/
theorem C15_joint_reset (s : State) (p : Nat) (h : Reachable s) :
    (edgeEnabled s → (Port_1 s).count = 0 ∧ (Port_1 s).data = 1) ∧
    (timerEnabled s → 13 ≤ sint s.count →
      (Timer0 p s).count = 0 ∧ (Timer0 p s).data = s.data) ∧
    (timerEnabled s → 2 ^ s.count ≤ s.data ∧ s.data < 2 ^ (s.count + 1)) := by
  have hI := Inv_reachable s h
  refine ⟨fun he => ⟨(Inv_listening s hI he).2.2, rfl⟩, fun _ hf => ?_, fun ht => ?_⟩
  · exact ⟨(framing_fields p s hf).2.2.2.1, (framing_fields p s hf).2.2.2.2⟩
  · exact (Inv_sampling s hI ht).2.2

/-- Witness of C15: the edge taken in the initial state. -/
theorem C15_joint_reset_witness :
    Reachable (init 0) ∧ (Port_1 (init 0)).count = 0 ∧ (Port_1 (init 0)).data = 1 :=
  ⟨Reachable.start 0, (C15_joint_reset (init 0) 0 (Reachable.start 0)).1 (by decide)⟩

/-- C15 as stated fails: the framing tick of the first transmission after
power-up resets count (13 to 0) but not data, and the reachable state it leaves
has count = 0 while data still holds the word 0b11_0_00001_000000 of that
transmission. -/
theorem C15_counterexample :
    Reachable (transmission (init 0) samplesAddr1Cmd0 0) ∧
    step (sampleTicks (Port_1 (init 0)) samplesAddr1Cmd0) (Event.tick 0)
      = some (transmission (init 0) samplesAddr1Cmd0 0) ∧
    (sampleTicks (Port_1 (init 0)) samplesAddr1Cmd0).count = 13 ∧
    (transmission (init 0) samplesAddr1Cmd0 0).count = 0 ∧
    (transmission (init 0) samplesAddr1Cmd0 0).data
      = (sampleTicks (Port_1 (init 0)) samplesAddr1Cmd0).data ∧
    (transmission (init 0) samplesAddr1Cmd0 0).data = 0b11000001000000 :=
  ⟨run_reachable (transmissionEvents samplesAddr1Cmd0 0) (init 0) _ (Reachable.start 0)
      (by decide),
   by decide, by decide, by decide, by decide, by decide⟩

/-! ## Frame conditions and dispatch -/

theorem sampling_frame (p : Nat) (s : State) :
    (sampling p s).lastCommand = s.lastCommand ∧ (sampling p s).lastToggle = s.lastToggle ∧
    (sampling p s).P1OUT = s.P1OUT := by
  unfold sampling
  by_cases hd : 0 < sint s.data <;> by_cases hp : p &&& IRDATA = IRDATA <;> simp [hd, hp]

theorem xor_two_pow_testBit (x k i : Nat) (h : i ≠ k) :
    (x ^^^ 2 ^ k).testBit i = x.testBit i := by
  rw [Nat.testBit_xor, Nat.testBit_two_pow_of_ne (Ne.symm h)]
  simp

/-- C16: the edge handler and every sampling tick of `Timer0` (count < 13)
leave `lastCommand`, `lastToggle` and `P1OUT` unchanged, and so does a
framing tick whose frame is marked repeat: they change only on a framing tick
whose frame is not a repeat. -/
theorem C16_repeat_state_frame (s : State) (p : Nat) :
    ((Port_1 s).lastCommand = s.lastCommand ∧ (Port_1 s).lastToggle = s.lastToggle ∧
      (Port_1 s).P1OUT = s.P1OUT) ∧
    (¬ 13 ≤ sint s.count →
      (Timer0 p s).lastCommand = s.lastCommand ∧ (Timer0 p s).lastToggle = s.lastToggle ∧
      (Timer0 p s).P1OUT = s.P1OUT) ∧
    (13 ≤ sint s.count → (Timer0 p s).«repeat» ≠ 0 →
      (Timer0 p s).lastCommand = s.lastCommand ∧ (Timer0 p s).lastToggle = s.lastToggle ∧
      (Timer0 p s).P1OUT = s.P1OUT) := by
  refine ⟨⟨rfl, rfl, rfl⟩, fun hc => ?_, fun hf hr => ?_⟩
  · rw [Timer0_sampling p s hc]
    exact sampling_frame p _
  · have hrep := framing_repeat p s hf
    have hl := framing_last p s hf
    have ho := framing_P1OUT p s hf
    by_cases hm : s.lastCommand = (Timer0 p s).command ∧ s.lastToggle = (Timer0 p s).toggle
    · refine ⟨hl.1.trans hm.1.symm, hl.2.trans hm.2.symm, ?_⟩
      rw [ho, if_neg hr]
    · rw [if_neg hm] at hrep
      exact absurd hrep hr

/-- Witness of C16: the first sampling tick after power-up. -/
theorem C16_repeat_state_frame_witness :
    ¬ 13 ≤ sint (Port_1 (init 0)).count ∧
    (Timer0 0 (Port_1 (init 0))).lastCommand = (Port_1 (init 0)).lastCommand ∧
    (Timer0 0 (Port_1 (init 0))).lastToggle = (Port_1 (init 0)).lastToggle ∧
    (Timer0 0 (Port_1 (init 0))).P1OUT = (Port_1 (init 0)).P1OUT :=
  ⟨by decide, (C16_repeat_state_frame (Port_1 (init 0)) 0).2.1 (by decide)⟩

/-- C17: on a framing tick whose frame is not a repeat, `P1OUT` is XORed with
RED (bit 0) for command 0, GREEN (bit 6) for command 1 and MOTOR (bit 7) for
command 7, every other bit of `P1OUT` keeping its value, and `P1OUT` is
unchanged for every other command. -/
theorem C17_dispatch_effect (s : State) (p : Nat) (h : 13 ≤ sint s.count)
    (hr : (Timer0 p s).«repeat» = 0) :
    ((Timer0 p s).command = 0 →
      (Timer0 p s).P1OUT = s.P1OUT ^^^ RED ∧
      ∀ i, i ≠ 0 → (Timer0 p s).P1OUT.testBit i = s.P1OUT.testBit i) ∧
    ((Timer0 p s).command = 1 →
      (Timer0 p s).P1OUT = s.P1OUT ^^^ GREEN ∧
      ∀ i, i ≠ 6 → (Timer0 p s).P1OUT.testBit i = s.P1OUT.testBit i) ∧
    ((Timer0 p s).command = 7 →
      (Timer0 p s).P1OUT = s.P1OUT ^^^ MOTOR ∧
      ∀ i, i ≠ 7 → (Timer0 p s).P1OUT.testBit i = s.P1OUT.testBit i) ∧
    ((Timer0 p s).command ≠ 0 → (Timer0 p s).command ≠ 1 → (Timer0 p s).command ≠ 7 →
      (Timer0 p s).P1OUT = s.P1OUT) ∧
    RED = 2 ^ 0 ∧ GREEN = 2 ^ 6 ∧ MOTOR = 2 ^ 7 := by
  have ho := framing_P1OUT p s h
  rw [if_pos hr] at ho
  refine ⟨fun hc => ?_, fun hc => ?_, fun hc => ?_, fun h0 h1 h7 => ?_, rfl, rfl, rfl⟩
  · rw [if_pos hc] at ho
    refine ⟨ho, fun i hi => ?_⟩
    rw [ho]; exact xor_two_pow_testBit s.P1OUT 0 i hi
  · rw [if_neg (by omega), if_pos hc] at ho
    refine ⟨ho, fun i hi => ?_⟩
    rw [ho]; exact xor_two_pow_testBit s.P1OUT 6 i hi
  · rw [if_neg (by omega), if_neg (by omega), if_pos hc] at ho
    refine ⟨ho, fun i hi => ?_⟩
    rw [ho]; exact xor_two_pow_testBit s.P1OUT 7 i hi
  · rw [if_neg h0, if_neg h1, if_neg h7] at ho
    exact ho

/-- Witness of C17: command 1 received first after power-up toggles the green
LED. -/
theorem C17_dispatch_effect_witness :
    13 ≤ sint (sampleTicks (Port_1 (init 0)) samplesCmd1Tgl0).count ∧
    (Timer0 0 (sampleTicks (Port_1 (init 0)) samplesCmd1Tgl0)).P1OUT
      = (sampleTicks (Port_1 (init 0)) samplesCmd1Tgl0).P1OUT ^^^ GREEN :=
  ⟨by decide,
   ((C17_dispatch_effect (sampleTicks (Port_1 (init 0)) samplesCmd1Tgl0) 0 (by decide)
      (by decide)).2.1 (by decide)).1⟩

/-- C18: in every reachable state the timer period register `TACCR0` equals
`T_INTERVAL` = 2450, and the `TACCR0 &= ~CCIFG` of the edge handler leaves it so. -/
theorem C18_sampling_interval (s : State) (h : Reachable s) :
    s.TACCR0 = T_INTERVAL ∧ T_INTERVAL = 2450 ∧ (Port_1 s).TACCR0 = T_INTERVAL := by
  have hT := (Inv_reachable s h).1
  refine ⟨hT, rfl, ?_⟩
  show s.TACCR0 &&& not16 CCIFG = T_INTERVAL
  rw [hT]; decide

/-- Witness of C18: the state after the first transmission after power-up. -/
theorem C18_sampling_interval_witness :
    Reachable (transmission (init 0) samplesAddr1Cmd0 0) ∧
    (transmission (init 0) samplesAddr1Cmd0 0).TACCR0 = T_INTERVAL :=
  ⟨run_reachable (transmissionEvents samplesAddr1Cmd0 0) (init 0) _ (Reachable.start 0)
      (by decide),
   (C18_sampling_interval (transmission (init 0) samplesAddr1Cmd0 0)
      (run_reachable (transmissionEvents samplesAddr1Cmd0 0) (init 0) _ (Reachable.start 0)
        (by decide))).1⟩

/-- C19: in every reachable state 0 ≤ count ≤ 13 and data ≤ 2^14 - 1, and
whenever the timer interrupt is enabled 2^count ≤ data < 2^(count+1); hence at
every sampling tick data > 0, so the guarded shift is taken, and the shifted
value 2 * data fits the 16-bit signed int without wrapping. -/
theorem C19_accumulator_range (s : State) (h : Reachable s) :
    (0 ≤ sint s.count ∧ sint s.count ≤ 13) ∧
    s.data ≤ 2 ^ 14 - 1 ∧
    (timerEnabled s → 2 ^ s.count ≤ s.data ∧ s.data < 2 ^ (s.count + 1)) ∧
    (timerEnabled s → ¬ 13 ≤ sint s.count →
      0 < sint s.data ∧ shl16 s.data = 2 * s.data ∧ sint (shl16 s.data) = 2 * sint s.data) := by
  have hI := Inv_reachable s h
  have hlt := reachable_data_lt s h
  have hcount : s.count ≤ 13 := by
    rcases hI.2 with hL | hS
    · rw [hL.2.2]; decide
    · exact hS.2.2.1
  have hsc : sint s.count = (s.count : Int) := sint_of_lt (by omega)
  refine ⟨?_, ?_, fun ht => (Inv_sampling s hI ht).2.2, fun ht hc => ?_⟩
  · rw [hsc]; omega
  · show s.data ≤ 16383
    omega
  · obtain ⟨_, _, h1, h2⟩ := Inv_sampling s hI ht
    rw [hsc] at hc
    have hpos : 0 < s.data := lt_of_lt_of_le (Nat.two_pow_pos s.count) h1
    have hle : 2 ^ (s.count + 1) ≤ 2 ^ 13 := Nat.pow_le_pow_right (by decide) (by omega)
    have hsd : sint s.data = (s.data : Int) := sint_of_lt (by omega)
    have hshl : shl16 s.data = 2 * s.data := by unfold shl16; omega
    have hss : sint (2 * s.data) = ((2 * s.data : Nat) : Int) := sint_of_lt (by omega)
    refine ⟨by rw [hsd]; omega, hshl, ?_⟩
    rw [hshl, hss, hsd]; push_cast; ring

/-- Witness of C19: the state after the edge and three sampling ticks. -/
theorem C19_accumulator_range_witness :
    Reachable (sampleTicks (Port_1 (init 0)) [0, 0x10, 0]) ∧
    (sampleTicks (Port_1 (init 0)) [0, 0x10, 0]).data ≤ 2 ^ 14 - 1 :=
  ⟨run_reachable [Event.edge, Event.tick 0, Event.tick 0x10, Event.tick 0] (init 0) _
      (Reachable.start 0) (by decide),
   (C19_accumulator_range (sampleTicks (Port_1 (init 0)) [0, 0x10, 0])
      (run_reachable [Event.edge, Event.tick 0, Event.tick 0x10, Event.tick 0] (init 0) _
        (Reachable.start 0) (by decide))).2.1⟩
end IRDecoder
